import Mathlib

/-
Verification development for the stract reporting proxy (src/api/views.py,
src/api/routes.py).  The Python pipeline is shallowly embedded: JSON values
become the inductive `Value`, Python dicts become insertion-ordered
association lists (`Row`), the paginated fetch loops become fuel-indexed
recursions over an abstract page-fetching function, and Python `TypeError`
during aggregation is modelled by `Option` (with `none` for a raised error).
-/

namespace Stract

/-- A decoded JSON value as manipulated by views.py.  Python `bool` is kept
separate from `int` even though `bool` is an `int` subclass; the numeric
predicates below treat it as numeric exactly as `isinstance(v, (int, float))`
does.  Floats are modelled by rationals (the upstream payloads carry decimal
literals; no NaN/inf arises in the modelled code paths). -/
inductive Value where
  | int (n : Int)
  | float (q : Rat)
  | str (s : String)
  | bool (b : Bool)
  | null
deriving DecidableEq, Repr

/-- A Python dict as used for insight rows: insertion-ordered key/value list.
Dicts produced by JSON decoding and by the code have pairwise-distinct keys. -/
abbrev Row : Type := List (String × Value)

/-- `d[k]` lookup that may fail (Python raises `KeyError`). -/
def rowGet : Row → String → Option Value
  | [], _ => none
  | kv :: t, k => if kv.1 == k then some kv.2 else rowGet t k

/-- `d.get(k, dflt)`. -/
def pyGetD (r : Row) (k : String) (dflt : Value) : Value :=
  (rowGet r k).getD dflt

/-- `d.get(k)` (default `None`). -/
def pyGet (r : Row) (k : String) : Value :=
  pyGetD r k Value.null

/-- `k in d`. -/
def rowHasKey : Row → String → Bool
  | [], _ => false
  | kv :: t, k => kv.1 == k || rowHasKey t k

/-- `d[k] = v`: replace in place when the key exists (keeping its position,
as CPython dicts do — decoded dicts have pairwise-distinct keys, so the
first occurrence is the only one), else append. -/
def rowSet : Row → String → Value → Row
  | [], k, v => [(k, v)]
  | kv :: t, k, v => if kv.1 == k then (k, v) :: t else kv :: rowSet t k v

/-- `isinstance(v, (int, float))` — `True` for `int`, `float` and `bool`
(a `bool` is an `int` in Python); `False` for strings (digit-bearing strings
included), `None`, and everything else. -/
def isNumeric : Value → Bool
  | Value.int _ => true
  | Value.float _ => true
  | Value.bool _ => true
  | _ => false

/-- The rational magnitude of a numeric value (`True` counts as 1). -/
def toRat : Value → Rat
  | Value.int n => (n : Rat)
  | Value.float q => q
  | Value.bool b => if b then 1 else 0
  | _ => 0

/-- The integer magnitude of a non-float numeric value. -/
def toInt : Value → Int
  | Value.int n => n
  | Value.bool b => if b then 1 else 0
  | _ => 0

def isFloat : Value → Bool
  | Value.float _ => true
  | _ => false

/-- Python `+` on two numeric operands: the result is a `float` when either
operand is a `float`, else an `int` (`True + True == 2`). -/
def numAdd (a b : Value) : Value :=
  if isFloat a || isFloat b then Value.float (toRat a + toRat b)
  else Value.int (toInt a + toInt b)

/-- Python `+`, partial: `none` models a raised `TypeError` (in particular
`"" + 1` raises, which is how a text-seeded aggregate cell reacts to a later
numeric value). -/
def pyAdd (a b : Value) : Option Value :=
  if isNumeric a && isNumeric b then some (numAdd a b)
  else
    match a, b with
    | Value.str s, Value.str t => some (Value.str (s ++ t))
    | _, _ => none

/-- Python `==` across the value kinds above: numbers (bools included)
compare by magnitude, strings by content, `None` only to `None`;
cross-kind comparisons are `False`. -/
def pyEq (a b : Value) : Bool :=
  if isNumeric a && isNumeric b then decide (toRat a = toRat b)
  else
    match a, b with
    | Value.str s, Value.str t => s == t
    | Value.null, Value.null => true
    | _, _ => false

/-- Python truthiness of a value. -/
def pyTruthy : Value → Bool
  | Value.int n => decide (n ≠ 0)
  | Value.float q => decide (q ≠ 0)
  | Value.str s => decide (s ≠ "")
  | Value.bool b => b
  | Value.null => false

/-- `a or b`. -/
def por (a b : Value) : Value :=
  if pyTruthy a then a else b

/-! ### The two aggregators (views.py, `aggregate_by_account` lines 148-169
and `aggregate_by_platform` lines 200-225).

The two Python functions are the same loop up to four parameters, collected
in `AggSpec`: the grouping key, which fields the loops `continue` over
(`aggregate_by_platform` skips `"Platform"` in both its inner loops), the
default of the `row.get` call (`None` for the account variant,
`""` for the platform variant — observably equivalent, kept faithful), and
the literal dict the fresh aggregate row starts from. -/

structure AggSpec where
  keyField : String
  skip : String → Bool
  dflt : Value
  initRow : Row → Row

/-- `aggregate_by_account`: `agg_row = {"Platform": row.get("Platform"),
"Account": account}`, no skipped field, `row.get(field)` defaults to `None`. -/
def accountSpec : AggSpec :=
  { keyField := "Account"
    skip := fun _ => false
    dflt := Value.null
    initRow := fun row => [("Platform", pyGet row "Platform"), ("Account", pyGet row "Account")] }

/-- `aggregate_by_platform`: `agg_row = {"Platform": platform}`, the loops
`continue` on `field == "Platform"`, `row.get(field, "")` defaults to `""`. -/
def platformSpec : AggSpec :=
  { keyField := "Platform"
    skip := fun f => f == "Platform"
    dflt := Value.str ""
    initRow := fun row => [("Platform", pyGet row "Platform")] }

/-- `0 if isinstance(value, (int, float)) else ""` for one field of the
seeding loop. -/
def seedCell (sp : AggSpec) (row : Row) (f : String) : Value :=
  if isNumeric (pyGetD row f sp.dflt) then Value.int 0 else Value.str ""

def seedStep (sp : AggSpec) (row : Row) (acc : Row) (f : String) : Row :=
  if sp.skip f then acc else rowSet acc f (seedCell sp row f)

/-- Seeding loop of a fresh aggregate row (first row of a group):
`agg_row[field] = 0 if isinstance(value, (int, float)) else ""`. -/
def seedAgg (sp : AggSpec) (fields : List String) (row : Row) : Row :=
  List.foldl (seedStep sp row) (sp.initRow row) fields

/-- One field of the accumulation loop:
`if isinstance(value, (int, float)): aggregated[key][field] += value`.
`none` is the `TypeError` raised by `+=` when the accumulated cell is a
string and the incoming value is numeric. -/
def accumCell (sp : AggSpec) (row : Row) (acc : Row) (f : String) : Option Row :=
  if sp.skip f then some acc
  else
    let value := pyGetD row f sp.dflt
    if isNumeric value then
      (pyAdd (pyGet acc f) value).map (fun v => rowSet acc f v)
    else some acc

/-- Accumulation loop over one row. -/
def accumAgg (sp : AggSpec) (fields : List String) (row : Row) (agg : Row) : Option Row :=
  List.foldlM (accumCell sp row) agg fields

/-- The `aggregated` dict: group key to aggregate row, insertion-ordered. -/
abbrev AggState : Type := List (Value × Row)

def hasAggKey (s : AggState) (k : Value) : Bool :=
  List.any s (fun p => pyEq p.1 k)

def findAggRow (s : AggState) (k : Value) : Option Row :=
  (List.find? (fun p => pyEq p.1 k) s).map (fun p => p.2)

def setAggRow (s : AggState) (k : Value) (r : Row) : AggState :=
  List.map (fun p => if pyEq p.1 k then (p.1, r) else p) s

/-- `if key not in aggregated: aggregated[key] = agg_row` — seed the group
when its key is new. -/
def aggInsert (sp : AggSpec) (fields : List String) (s : AggState) (row : Row) : AggState :=
  if hasAggKey s (pyGet row sp.keyField) then s
  else s ++ [(pyGet row sp.keyField, seedAgg sp fields row)]

/-- Body of `for row in insights`: seed the group if its key is new, then
run the accumulation loop and store the updated aggregate row. -/
def aggStep (sp : AggSpec) (fields : List String) (s : AggState) (row : Row) : Option AggState :=
  match findAggRow (aggInsert sp fields s row) (pyGet row sp.keyField) with
  | none => none
  | some agg =>
    (accumAgg sp fields row agg).map
      (fun agg2 => setAggRow (aggInsert sp fields s row) (pyGet row sp.keyField) agg2)

def aggAssoc (sp : AggSpec) (insights : List Row) (fields : List String) : Option AggState :=
  List.foldlM (aggStep sp fields) [] insights

/-- views.py `aggregate_by_account` (lines 148-169); `none` models a raised
`TypeError`, `some` carries `list(aggregated.values())`. -/
def aggregate_by_account (insights : List Row) (fields : List String) : Option (List Row) :=
  (aggAssoc accountSpec insights fields).map (fun s => List.map (fun p => p.2) s)

/-- views.py `aggregate_by_platform` (lines 200-225). -/
def aggregate_by_platform (insights : List Row) (all_fields : List String) : Option (List Row) :=
  (aggAssoc platformSpec insights all_fields).map (fun s => List.map (fun p => p.2) s)

/-! Reference functions (stated from scratch, for the claim theorems):
groups in first-encounter order, group membership, and numeric sums. -/

/-- One step of collecting group keys in first-encounter order. -/
def keyStep (keyField : String) (ks : List Value) (r : Row) : List Value :=
  let k := pyGet r keyField
  if List.any ks (fun k0 => pyEq k0 k) then ks else ks ++ [k]

/-- First-encounter list of group keys (`pyEq`-deduplicated). -/
def keysOf (keyField : String) (rows : List Row) : List Value :=
  List.foldl (keyStep keyField) [] rows

/-- The rows of the group of key `k`. -/
def groupOf (keyField : String) (rows : List Row) (k : Value) : List Row :=
  List.filter (fun r => pyEq (pyGet r keyField) k) rows

/-- Sum (with Python `+` numeric semantics, starting from the int `0` seed)
of the numeric values in a list. -/
def sumNumeric (vs : List Value) : Value :=
  List.foldl numAdd (Value.int 0) (List.filter isNumeric vs)

/-- Rational sum of the numeric values in a list. -/
def ratSum (vs : List Value) : Rat :=
  List.foldl (fun q v => if isNumeric v then q + toRat v else q) 0 vs

/-! ### CSV rendering (views.py `generate_csv`, lines 227-241).

`csv.DictWriter(output, fieldnames=fieldnames, extrasaction='ignore')` with
the default excel dialect: delimiter `,`, quote char `"`, QUOTE_MINIMAL,
line terminator CRLF.  `writeheader()` writes the field names themselves;
each `writerow(row)` writes `row.get(f, None)` for each field name in order,
`None` rendering as the empty field. -/

/-- QUOTE_MINIMAL: a field is quoted iff it contains the delimiter, the
quote char, or a line-terminator character. -/
def csvNeedsQuote (s : String) : Bool :=
  List.any s.toList (fun c => c == ',' || c == '"' || c == '\r' || c == '\n')

def csvQuote (s : String) : String :=
  if csvNeedsQuote s then "\"" ++ String.replace s "\"" "\"\"" ++ "\"" else s

/-- One CSV record plus CRLF.  A record that is a single empty field is
written as a quoted empty string (CPython's `_csv` does this under
QUOTE_MINIMAL so the record is not mistaken for a blank line). -/
def csvRecord (cells : List String) : String :=
  match cells with
  | [""] => "\"\"\r\n"
  | _ => String.intercalate "," (List.map csvQuote cells) ++ "\r\n"

/-- How the csv writer prints one cell value: `None` becomes the empty
string, strings pass through, ints and bools via `str()`, floats via
`repr()` (only exact decimal floats arise in the modelled pipeline; the
deriving step produces ratios of decoded decimals). -/
def cellStr : Value → String
  | Value.null => ""
  | Value.str s => s
  | Value.int n => toString n
  | Value.bool b => if b then "True" else "False"
  | Value.float q =>
    if q.den == 1 then toString q.num ++ ".0" else toString q.num ++ "/" ++ toString q.den

/-- The cell rendered for field name `f` of `row`:
`row.get(f, None)` printed by the csv writer. -/
def csvCell (row : Row) (f : String) : String :=
  cellStr (pyGet row f)

/-- views.py `generate_csv` (lines 227-241). -/
def generate_csv (rows : List Row) (fieldnames : List String) : String :=
  csvRecord fieldnames ++
    String.join (List.map (fun row => csvRecord (List.map (csvCell row) fieldnames)) rows)

/-- routes.py `geral_summary` (lines 144-154) after the upstream fetch:
aggregate the rows by platform, then render them with the same `all_fields`
list that `get_all_insights` returned (which starts `Platform, Account`). -/
def geral_summary_csv (insights : List Row) (all_fields : List String) : Option String :=
  (aggregate_by_platform insights all_fields).map (fun agg => generate_csv agg all_fields)

/-! ### The paginated fetch loops (views.py `get_accounts` lines 44-66,
`get_fields` lines 68-90, `get_insights` lines 92-125).

`fetch_api` abstracts to `fetch : Nat -> Option (PageResponse)`: the
argument is the `page` query parameter (the other parameters — platform,
account, token, comma-joined fields — are fixed for the whole loop and are
captured inside `fetch`); `none` stands for `fetch_api` returning `None`
(non-200 status or JSON decode failure) or a falsy decoded value, i.e. the
`if not data: break` test firing.  `items` is the response's named array
(`accounts` / `fields` / `insights`), `none` when the key is absent, so
`data.get(key, [])` is `items.getD []`.  The `while True:` loop is given
explicit fuel; exhausted fuel (the loop still running) is `none`. -/

structure Pagination where
  current : Option Int
  total : Option Int
deriving DecidableEq, Repr

structure PageResponse where
  items : Option (List Row)
  pagination : Option Pagination
deriving DecidableEq, Repr

/-- `data.get("pagination", {}).get("current", 1)`. -/
def pagCurrent (p : Option Pagination) : Int :=
  match p with
  | none => 1
  | some pg => pg.current.getD 1

/-- `data.get("pagination", {}).get("total", 1)`. -/
def pagTotal (p : Option Pagination) : Int :=
  match p with
  | none => 1
  | some pg => pg.total.getD 1

/-- The loop of `get_accounts`. -/
def get_accounts_go (fetch : Nat → Option PageResponse) : Nat → Nat → List Row → Option (List Row)
  | 0, _, _ => none
  | fuel + 1, page, accounts =>
    match fetch page with
    | none => some accounts
    | some data =>
      let new_accounts := data.items.getD []
      if new_accounts.isEmpty then some accounts
      else
        if pagCurrent data.pagination ≥ pagTotal data.pagination then
          some (accounts ++ new_accounts)
        else get_accounts_go fetch fuel (page + 1) (accounts ++ new_accounts)

/-- views.py `get_accounts` (lines 44-66). -/
def get_accounts (fuel : Nat) (fetch : Nat → Option PageResponse) : Option (List Row) :=
  get_accounts_go fetch fuel 1 []

/-- The loop of `get_fields` (identical shape). -/
def get_fields_go (fetch : Nat → Option PageResponse) : Nat → Nat → List Row → Option (List Row)
  | 0, _, _ => none
  | fuel + 1, page, fields =>
    match fetch page with
    | none => some fields
    | some data =>
      let new_fields := data.items.getD []
      if new_fields.isEmpty then some fields
      else
        if pagCurrent data.pagination ≥ pagTotal data.pagination then
          some (fields ++ new_fields)
        else get_fields_go fetch fuel (page + 1) (fields ++ new_fields)

/-- views.py `get_fields` (lines 68-90): the loop, then the projection
`[field["value"] for field in fields]` (the inner `Option` is the
possible `KeyError` of `field["value"]`). -/
def get_fields (fuel : Nat) (fetch : Nat → Option PageResponse) : Option (Option (List Value)) :=
  (get_fields_go fetch fuel 1 []).map
    (fun fields => List.mapM (fun field => rowGet field "value") fields)

/-- The loop of `get_insights` (identical shape). -/
def get_insights_go (fetch : Nat → Option PageResponse) : Nat → Nat → List Row → Option (List Row)
  | 0, _, _ => none
  | fuel + 1, page, insights =>
    match fetch page with
    | none => some insights
    | some data =>
      let new_insights := data.items.getD []
      if new_insights.isEmpty then some insights
      else
        if pagCurrent data.pagination ≥ pagTotal data.pagination then
          some (insights ++ new_insights)
        else get_insights_go fetch fuel (page + 1) (insights ++ new_insights)

/-- views.py `get_insights` (lines 92-125). -/
def get_insights (fuel : Nat) (fetch : Nat → Option PageResponse) : Option (List Row) :=
  get_insights_go fetch fuel 1 []

/-- The common pagination policy, written once, to compare the three
instantiations against. -/
def paginate_go (fetch : Nat → Option PageResponse) : Nat → Nat → List Row → Option (List Row)
  | 0, _, _ => none
  | fuel + 1, page, acc =>
    match fetch page with
    | none => some acc
    | some data =>
      let new_items := data.items.getD []
      if new_items.isEmpty then some acc
      else
        if pagCurrent data.pagination ≥ pagTotal data.pagination then
          some (acc ++ new_items)
        else paginate_go fetch fuel (page + 1) (acc ++ new_items)

def paginate (fuel : Nat) (fetch : Nat → Option PageResponse) : Option (List Row) :=
  paginate_go fetch fuel 1 []

/-! ### The ga4 Cost-per-Click derivation (views.py `get_all_insights`,
lines 188-197).

`float(x)` succeeds on numbers and on numeric string literals; it raises on
`None` and non-numeric strings.  The parser below accepts an optional sign
and decimal digits with at most one point — the shapes the upstream JSON
can carry into this code path. -/

def digitsVal (ds : List Char) : Nat :=
  List.foldl (fun n c => 10 * n + (c.toNat - 48)) 0 ds

/-- `float(s)` on a string (leading and trailing spaces stripped the way
`float` strips whitespace). -/
def parseFloat (s : String) : Option Rat :=
  let cs := (List.dropWhile (fun c => c == ' ')
    (List.reverse (List.dropWhile (fun c => c == ' ') (List.reverse s.toList))))
  let signed : Bool × List Char :=
    match cs with
    | '-' :: t => (true, t)
    | '+' :: t => (false, t)
    | _ => (false, cs)
  let ip := List.takeWhile Char.isDigit signed.2
  let rest := List.dropWhile Char.isDigit signed.2
  let mag : Option Rat :=
    match rest with
    | [] => if ip.isEmpty then none else some ((digitsVal ip : Int) : Rat)
    | '.' :: rest2 =>
      let fp := List.takeWhile Char.isDigit rest2
      let rest3 := List.dropWhile Char.isDigit rest2
      if rest3.isEmpty && !(ip.isEmpty && fp.isEmpty) then
        some (((digitsVal ip : Int) : Rat) + ((digitsVal fp : Int) : Rat) / ((10 ^ fp.length : Int) : Rat))
      else none
    | _ => none
  mag.map (fun q => if signed.1 then -q else q)

/-- `float(v)`; `none` models a raised `TypeError`/`ValueError`. -/
def pyFloat : Value → Option Rat
  | Value.int n => some (n : Rat)
  | Value.float q => some q
  | Value.bool b => some (if b then 1 else 0)
  | Value.str s => parseFloat s
  | Value.null => none

/-- `spend = row.get("spend") or row.get("Spend") or 0`. -/
def cpcSpend (row : Row) : Value :=
  por (por (pyGet row "spend") (pyGet row "Spend")) (Value.int 0)

/-- `clicks = row.get("clicks") or row.get("Clicks") or 0`. -/
def cpcClicks (row : Row) : Value :=
  por (por (pyGet row "clicks") (pyGet row "Clicks")) (Value.int 0)

/-- `float(spend) / float(clicks) if clicks else 0`, inside
`try: ... except: row["Cost per Click"] = 0`: any coercion failure or
division by zero collapses to the int `0`. -/
def cpcValue (row : Row) : Value :=
  if pyTruthy (cpcClicks row) then
    match pyFloat (cpcSpend row), pyFloat (cpcClicks row) with
    | some a, some b => if b = 0 then Value.int 0 else Value.float (a / b)
    | _, _ => Value.int 0
  else Value.int 0

/-- `row.get("Platform") == "ga4"`. -/
def isGa4 (row : Row) : Bool :=
  pyEq (pyGet row "Platform") (Value.str "ga4")

/-- Per-row effect of the loop body: ga4 rows get the derived
`"Cost per Click"` entry, other rows are untouched. -/
def cpcRow (row : Row) : Row :=
  if isGa4 row then rowSet row "Cost per Click" (cpcValue row) else row

/-- Per-row effect on `all_fields`:
`if "Cost per Click" not in all_fields: all_fields.append("Cost per Click")`,
executed only for ga4 rows. -/
def cpcFields (all_fields : List String) (row : Row) : List String :=
  if isGa4 row && !(List.contains all_fields "Cost per Click") then
    all_fields ++ ["Cost per Click"]
  else all_fields

/-- The whole `for row in insights_all:` loop of `get_all_insights`
(lines 188-197), returning the updated rows and field list. -/
def cpcLoop (rows : List Row) (all_fields : List String) : List Row × List String :=
  List.foldl (fun st row => (st.1 ++ [cpcRow row], cpcFields st.2 row)) ([], all_fields) rows

/-! ### Heap-passing view of the aggregators, for the frame property.

Python dicts are heap objects: the aggregators receive *references* to the
insight rows, and mutation (if any) would be visible to the caller.  To talk
about mutation at all, the same two functions are re-translated against an
explicit heap: rows live in a `Heap`, the input is a list of addresses, every
read dereferences the live heap, and every `agg_row` write is a heap write.
Fresh aggregate rows are allocated at the end of the heap, so an address is
fresh iff it is `≥` the initial heap length.  On a `TypeError` the heap
mutated so far is still returned (Python's caller sees the exception after
those writes). -/

abbrev Heap : Type := List Row

def heapGet (h : Heap) (p : Nat) : Row :=
  h.getD p []

def heapSet (h : Heap) (p : Nat) (r : Row) : Heap :=
  h.set p r

/-- The accumulation loop with live heap reads and writes; the `Bool` is
false when `+=` raised. -/
def accumHeap (sp : AggSpec) (rp ptr : Nat) : List String → Heap → Heap × Bool
  | [], h => (h, true)
  | f :: fs, h =>
    if sp.skip f then accumHeap sp rp ptr fs h
    else
      let value := pyGetD (heapGet h rp) f sp.dflt
      if isNumeric value then
        match pyAdd (pyGet (heapGet h ptr) f) value with
        | none => (h, false)
        | some v => accumHeap sp rp ptr fs (heapSet h ptr (rowSet (heapGet h ptr) f v))
      else accumHeap sp rp ptr fs h

/-- `if key not in aggregated: aggregated[key] = agg_row` in the heap view:
allocate the seeded aggregate row at the end of the heap when the key is
new. -/
def heapInsert (sp : AggSpec) (fields : List String) (h : Heap)
    (assoc : List (Value × Nat)) (rp : Nat) : Heap × List (Value × Nat) :=
  if List.any assoc (fun p => pyEq p.1 (pyGet (heapGet h rp) sp.keyField)) then (h, assoc)
  else (h ++ [seedAgg sp fields (heapGet h rp)],
        assoc ++ [(pyGet (heapGet h rp) sp.keyField, h.length)])

/-- The row loop: allocate-and-seed on a new group key, then accumulate into
the group's aggregate row through the heap. -/
def aggHeapGo (sp : AggSpec) (fields : List String) :
    List Nat → Heap → List (Value × Nat) → Heap × List (Value × Nat) × Bool
  | [], h, assoc => (h, assoc, true)
  | rp :: rest, h, assoc =>
    match List.find? (fun p => pyEq p.1 (pyGet (heapGet h rp) sp.keyField))
        (heapInsert sp fields h assoc rp).2 with
    | none => ((heapInsert sp fields h assoc rp).1, (heapInsert sp fields h assoc rp).2, false)
    | some p =>
      match accumHeap sp rp p.2 fields (heapInsert sp fields h assoc rp).1 with
      | (h2, true) => aggHeapGo sp fields rest h2 (heapInsert sp fields h assoc rp).2
      | (h2, false) => (h2, (heapInsert sp fields h assoc rp).2, false)

/-- `aggregate_by_account` in the heap-passing view: final heap, plus the
addresses of `list(aggregated.values())` (or `none` when it raised). -/
def aggregate_by_account_heap (h : Heap) (rows : List Nat) (fields : List String) :
    Heap × Option (List Nat) :=
  match aggHeapGo accountSpec fields rows h [] with
  | (h2, assoc, true) => (h2, some (List.map (fun p => p.2) assoc))
  | (h2, _, false) => (h2, none)

/-- `aggregate_by_platform` in the heap-passing view. -/
def aggregate_by_platform_heap (h : Heap) (rows : List Nat) (all_fields : List String) :
    Heap × Option (List Nat) :=
  match aggHeapGo platformSpec all_fields rows h [] with
  | (h2, assoc, true) => (h2, some (List.map (fun p => p.2) assoc))
  | (h2, _, false) => (h2, none)

/-! ### Basic lemmas about rows and Python equality. -/

theorem rowGet_rowSet_self (r : Row) (k : String) (v : Value) :
    rowGet (rowSet r k v) k = some v := by
  induction r with
  | nil => simp [rowSet, rowGet]
  | cons a t ih =>
    by_cases ha : (a.1 == k) = true
    · simp [rowSet, rowGet, ha]
    · simp [rowSet, rowGet, ha, ih]

theorem rowGet_rowSet_ne (r : Row) (k k2 : String) (v : Value) (h : k2 ≠ k) :
    rowGet (rowSet r k v) k2 = rowGet r k2 := by
  induction r with
  | nil => simp [rowSet, rowGet, Ne.symm h]
  | cons a t ih =>
    by_cases ha : (a.1 == k) = true
    · have hak : a.1 = k := by simpa using ha
      by_cases hb : (a.1 == k2) = true
      · exact absurd (hak ▸ (by simpa using hb)) (Ne.symm h)
      · simp [rowSet, rowGet, ha, hb, hak, Ne.symm h]
    · by_cases hb : (a.1 == k2) = true
      · simp [rowSet, rowGet, ha, hb]
      · simp [rowSet, rowGet, ha, hb, ih]

theorem pyGet_rowSet_self (r : Row) (k : String) (v : Value) :
    pyGet (rowSet r k v) k = v := by
  simp [pyGet, pyGetD, rowGet_rowSet_self]

theorem pyGet_rowSet_ne (r : Row) (k k2 : String) (v : Value) (h : k2 ≠ k) :
    pyGet (rowSet r k v) k2 = pyGet r k2 := by
  simp [pyGet, pyGetD, rowGet_rowSet_ne r k k2 v h]

theorem pyEq_refl (a : Value) : pyEq a a = true := by
  cases a <;> simp [pyEq, isNumeric]

theorem pyEq_symm (a b : Value) : pyEq a b = pyEq b a := by
  cases a <;> cases b <;> simp [pyEq, isNumeric, eq_comm]

theorem pyEq_trans {a b c : Value} (h1 : pyEq a b = true) (h2 : pyEq b c = true) :
    pyEq a c = true := by
  cases a <;> cases b <;> cases c <;>
    simp_all [pyEq, isNumeric]

/-! ### Numeric sum lemmas. -/

theorem isNumeric_numAdd (a b : Value) : isNumeric (numAdd a b) = true := by
  unfold numAdd
  by_cases h : (isFloat a || isFloat b) = true <;> simp [h, isNumeric]

theorem toRat_toInt (a : Value) (ha : isNumeric a = true) (hf : isFloat a = false) :
    toRat a = (toInt a : Rat) := by
  cases a with
  | int n => simp [toRat, toInt]
  | float q => simp [isFloat] at hf
  | str s => simp [isNumeric] at ha
  | bool b => cases b <;> simp [toRat, toInt]
  | null => simp [isNumeric] at ha

theorem toRat_numAdd (a b : Value) (ha : isNumeric a = true) (hb : isNumeric b = true) :
    toRat (numAdd a b) = toRat a + toRat b := by
  unfold numAdd
  by_cases h : (isFloat a || isFloat b) = true
  · simp [h, toRat]
  · simp only [Bool.not_eq_true] at h
    have h2 := Bool.or_eq_false_iff.mp h
    simp only [h, Bool.false_eq_true, if_false]
    have : toRat (Value.int (toInt a + toInt b)) = ((toInt a + toInt b : Int) : Rat) := rfl
    rw [this, toRat_toInt a ha h2.1, toRat_toInt b hb h2.2]
    push_cast
    ring

theorem pyAdd_some_of_numeric (a b : Value) (ha : isNumeric a = true) (hb : isNumeric b = true) :
    pyAdd a b = some (numAdd a b) := by
  simp [pyAdd, ha, hb]

theorem pyAdd_none_of_numeric (a b : Value) (ha : isNumeric a = false) (hb : isNumeric b = true) :
    pyAdd a b = none := by
  unfold pyAdd
  simp only [ha, Bool.false_and, Bool.false_eq_true, if_false]
  cases a <;> cases b <;> simp_all [isNumeric]

theorem pyAdd_some_numeric {a b w : Value} (h : pyAdd a b = some w) (hb : isNumeric b = true) :
    isNumeric a = true ∧ w = numAdd a b := by
  by_cases ha : isNumeric a = true
  · refine ⟨ha, ?_⟩
    rw [pyAdd_some_of_numeric a b ha hb] at h
    exact (Option.some.injEq _ _ ▸ h).symm
  · rw [pyAdd_none_of_numeric a b (Bool.not_eq_true _ ▸ ha) hb] at h
    exact absurd h (by simp)

theorem isNumeric_foldl_numAdd (l : List Value) (acc : Value) (h : isNumeric acc = true) :
    isNumeric (List.foldl numAdd acc l) = true := by
  induction l generalizing acc with
  | nil => simpa
  | cons v t ih => exact ih _ (isNumeric_numAdd acc v)

theorem isNumeric_sumNumeric (vs : List Value) : isNumeric (sumNumeric vs) = true :=
  isNumeric_foldl_numAdd _ _ (by simp [isNumeric])

theorem toRat_foldl_numAdd (l : List Value) (acc : Value) (hacc : isNumeric acc = true) :
    toRat (List.foldl numAdd acc (List.filter isNumeric l)) =
      List.foldl (fun q v => if isNumeric v then q + toRat v else q) (toRat acc) l := by
  induction l generalizing acc with
  | nil => simp
  | cons v t ih =>
    by_cases hv : isNumeric v = true
    · simp only [List.filter_cons, hv, if_true, List.foldl_cons]
      rw [ih (numAdd acc v) (isNumeric_numAdd acc v), toRat_numAdd acc v hacc hv]
    · simp only [List.filter_cons, hv, Bool.false_eq_true, if_false, List.foldl_cons]
      rw [ih acc hacc]

theorem toRat_sumNumeric (vs : List Value) : toRat (sumNumeric vs) = ratSum vs := by
  unfold sumNumeric ratSum
  rw [toRat_foldl_numAdd vs (Value.int 0) (by simp [isNumeric])]
  simp [toRat]

theorem sumNumeric_append (vs : List Value) (v : Value) :
    sumNumeric (vs ++ [v]) =
      if isNumeric v then numAdd (sumNumeric vs) v else sumNumeric vs := by
  unfold sumNumeric
  rw [List.filter_append, List.foldl_append]
  by_cases hv : isNumeric v = true <;> simp [hv]

/-! ### Lemmas about the seeding and accumulation loops. -/

theorem pyGet_seedFold_not_mem (sp : AggSpec) (row : Row) (l : List String) (acc : Row)
    (f : String) (hf : f ∉ l) :
    pyGet (List.foldl (seedStep sp row) acc l) f = pyGet acc f := by
  induction l generalizing acc with
  | nil => rfl
  | cons g t ih =>
    have hg : f ≠ g := fun hc => hf (hc ▸ List.mem_cons_self g t)
    have hft : f ∉ t := fun hc => hf (List.mem_cons_of_mem _ hc)
    simp only [List.foldl_cons]
    rw [ih _ hft]
    unfold seedStep
    by_cases hsk : sp.skip g = true
    · simp [hsk]
    · rw [if_neg hsk]
      exact pyGet_rowSet_ne acc g f _ hg

theorem pyGet_seedFold_mem (sp : AggSpec) (row : Row) (l : List String) (acc : Row)
    (f : String) (hnd : l.Nodup) (hf : f ∈ l) (hs : sp.skip f = false) :
    pyGet (List.foldl (seedStep sp row) acc l) f = seedCell sp row f := by
  induction l generalizing acc with
  | nil => exact absurd hf (List.not_mem_nil f)
  | cons g t ih =>
    simp only [List.foldl_cons]
    by_cases hg : f = g
    · subst hg
      have hft : f ∉ t := (List.nodup_cons.mp hnd).1
      rw [pyGet_seedFold_not_mem sp row t _ f hft]
      unfold seedStep
      rw [if_neg (by simp [hs]), pyGet_rowSet_self]
    · have hft : f ∈ t := (List.mem_cons.mp hf).resolve_left hg
      exact ih _ (List.nodup_cons.mp hnd).2 hft

theorem pyGet_seedAgg (sp : AggSpec) (fields : List String) (row : Row) (f : String)
    (hnd : fields.Nodup) (hf : f ∈ fields) (hs : sp.skip f = false) :
    pyGet (seedAgg sp fields row) f = seedCell sp row f :=
  pyGet_seedFold_mem sp row fields _ f hnd hf hs

theorem accumCell_get_ne {sp : AggSpec} {row acc acc1 : Row} {f0 : String}
    (h : accumCell sp row acc f0 = some acc1) (f : String) (hne : f ≠ f0) :
    pyGet acc1 f = pyGet acc f := by
  unfold accumCell at h
  by_cases hsk : sp.skip f0 = true
  · rw [if_pos hsk] at h
    cases h
    rfl
  · rw [if_neg hsk] at h
    by_cases hv : isNumeric (pyGetD row f0 sp.dflt) = true
    · simp only [hv, if_true] at h
      cases hw : pyAdd (pyGet acc f0) (pyGetD row f0 sp.dflt) with
      | none => rw [hw] at h; exact absurd h (by simp)
      | some w =>
        rw [hw] at h
        simp only [Option.map_some'] at h
        cases h
        exact pyGet_rowSet_ne acc f0 f w hne
    · simp only [hv, Bool.false_eq_true, if_false] at h
      cases h
      rfl

theorem accumAgg_not_mem {sp : AggSpec} {fields : List String} {row agg agg2 : Row}
    (h : accumAgg sp fields row agg = some agg2) (f : String) (hf : f ∉ fields) :
    pyGet agg2 f = pyGet agg f := by
  induction fields generalizing agg with
  | nil =>
    unfold accumAgg at h
    simp only [List.foldlM_nil] at h
    cases h
    rfl
  | cons g t ih =>
    unfold accumAgg at h
    simp only [List.foldlM_cons] at h
    cases hcell : accumCell sp row agg g with
    | none => rw [hcell] at h; exact absurd h (by simp)
    | some agg1 =>
      rw [hcell] at h
      simp only [Option.bind_eq_bind, Option.some_bind] at h
      have hft : f ∉ t := fun hc => hf (List.mem_cons_of_mem _ hc)
      have hg : f ≠ g := fun hc => hf (hc ▸ List.mem_cons_self g t)
      rw [ih h hft, accumCell_get_ne hcell f hg]

theorem accumAgg_get {sp : AggSpec} {fields : List String} {row agg agg2 : Row}
    (hnd : fields.Nodup) (h : accumAgg sp fields row agg = some agg2) (f : String)
    (hf : f ∈ fields) (hs : sp.skip f = false) :
    (isNumeric (pyGetD row f sp.dflt) = true →
        isNumeric (pyGet agg f) = true ∧
        pyGet agg2 f = numAdd (pyGet agg f) (pyGetD row f sp.dflt)) ∧
    (isNumeric (pyGetD row f sp.dflt) = false → pyGet agg2 f = pyGet agg f) := by
  induction fields generalizing agg with
  | nil => exact absurd hf (List.not_mem_nil f)
  | cons g t ih =>
    unfold accumAgg at h
    simp only [List.foldlM_cons] at h
    cases hcell : accumCell sp row agg g with
    | none => rw [hcell] at h; exact absurd h (by simp)
    | some agg1 =>
      rw [hcell] at h
      simp only [Option.bind_eq_bind, Option.some_bind] at h
      by_cases hg : f = g
      · subst hg
        have hft : f ∉ t := (List.nodup_cons.mp hnd).1
        have htail : pyGet agg2 f = pyGet agg1 f := accumAgg_not_mem h f hft
        unfold accumCell at hcell
        rw [if_neg (by simp [hs])] at hcell
        by_cases hv : isNumeric (pyGetD row f sp.dflt) = true
        · simp only [hv, if_true] at hcell
          cases hw : pyAdd (pyGet agg f) (pyGetD row f sp.dflt) with
          | none => rw [hw] at hcell; exact absurd hcell (by simp)
          | some w =>
            rw [hw] at hcell
            simp only [Option.map_some'] at hcell
            cases hcell
            have hnum := pyAdd_some_numeric hw hv
            constructor
            · intro _
              refine ⟨hnum.1, ?_⟩
              rw [htail, pyGet_rowSet_self, hnum.2]
            · intro hv2
              rw [hv] at hv2
              exact absurd hv2 (by simp)
        · simp only [hv, Bool.false_eq_true, if_false] at hcell
          cases hcell
          constructor
          · intro hv2
            exact absurd hv2 hv
          · intro _
            exact htail
      · have hft : f ∈ t := (List.mem_cons.mp hf).resolve_left hg
        have hcg : pyGet agg1 f = pyGet agg f := accumCell_get_ne hcell f hg
        have := ih (List.nodup_cons.mp hnd).2 h hft
        rw [hcg] at this
        exact this

theorem accumAgg_isSome {sp : AggSpec} {fields : List String} {row agg : Row}
    (hcrit : ∀ f ∈ fields, sp.skip f = false →
      isNumeric (pyGetD row f sp.dflt) = true → isNumeric (pyGet agg f) = true) :
    (accumAgg sp fields row agg).isSome = true := by
  induction fields generalizing agg with
  | nil => rfl
  | cons g t ih =>
    unfold accumAgg
    simp only [List.foldlM_cons]
    have hstep : ∃ agg1, accumCell sp row agg g = some agg1 ∧
        (∀ f ∈ t, sp.skip f = false →
          isNumeric (pyGetD row f sp.dflt) = true → isNumeric (pyGet agg1 f) = true) := by
      unfold accumCell
      by_cases hsk : sp.skip g = true
      · refine ⟨agg, by rw [if_pos hsk], ?_⟩
        intro f hft hs hv
        exact hcrit f (List.mem_cons_of_mem _ hft) hs hv
      · rw [if_neg hsk]
        by_cases hv : isNumeric (pyGetD row g sp.dflt) = true
        · have hacc : isNumeric (pyGet agg g) = true :=
            hcrit g (List.mem_cons_self g t) (Bool.not_eq_true _ ▸ hsk) hv
          refine ⟨rowSet agg g (numAdd (pyGet agg g) (pyGetD row g sp.dflt)), ?_, ?_⟩
          · simp [hv, pyAdd_some_of_numeric _ _ hacc hv]
          · intro f hft hs hv2
            by_cases hfg : f = g
            · subst hfg
              rw [pyGet_rowSet_self]
              exact isNumeric_numAdd _ _
            · rw [pyGet_rowSet_ne agg g f _ hfg]
              exact hcrit f (List.mem_cons_of_mem _ hft) hs hv2
        · refine ⟨agg, by simp [hv], ?_⟩
          intro f hft hs hv2
          exact hcrit f (List.mem_cons_of_mem _ hft) hs hv2
    obtain ⟨agg1, hcell, hcrit1⟩ := hstep
    rw [hcell]
    simp only [Option.bind_eq_bind, Option.some_bind]
    exact ih hcrit1

/-! ### Lemmas about group keys and groups. -/

theorem keyStep_pos (kf : String) (ks : List Value) (r : Row)
    (h : List.any ks (fun k0 => pyEq k0 (pyGet r kf)) = true) :
    keyStep kf ks r = ks := by
  unfold keyStep
  rw [if_pos h]

theorem keyStep_neg (kf : String) (ks : List Value) (r : Row)
    (h : ¬ List.any ks (fun k0 => pyEq k0 (pyGet r kf)) = true) :
    keyStep kf ks r = ks ++ [pyGet r kf] := by
  unfold keyStep
  rw [if_neg h]

theorem keysOf_append_one (kf : String) (rows : List Row) (r : Row) :
    keysOf kf (rows ++ [r]) = keyStep kf (keysOf kf rows) r := by
  unfold keysOf
  rw [List.foldl_append]
  rfl

theorem groupOf_append (kf : String) (l1 l2 : List Row) (k : Value) :
    groupOf kf (l1 ++ l2) k = groupOf kf l1 k ++ groupOf kf l2 k := by
  unfold groupOf
  exact List.filter_append _ _

theorem groupOf_single (kf : String) (r : Row) (k : Value) :
    groupOf kf [r] k = if pyEq (pyGet r kf) k then [r] else [] := by
  unfold groupOf
  by_cases h : pyEq (pyGet r kf) k = true <;> simp [h]

theorem keysOf_mem_aux (kf : String) (rows : List Row) (ks : List Value) (k : Value) :
    (∃ k0 ∈ List.foldl (keyStep kf) ks rows, pyEq k0 k = true) ↔
      (∃ k0 ∈ ks, pyEq k0 k = true) ∨ (∃ r ∈ rows, pyEq (pyGet r kf) k = true) := by
  induction rows generalizing ks with
  | nil => simp
  | cons r t ih =>
    simp only [List.foldl_cons]
    by_cases h : List.any ks (fun k0 => pyEq k0 (pyGet r kf)) = true
    · rw [keyStep_pos kf ks r h, ih ks]
      constructor
      · rintro (hl | hr)
        · exact Or.inl hl
        · obtain ⟨r2, hr2, hpe⟩ := hr
          exact Or.inr ⟨r2, List.mem_cons_of_mem _ hr2, hpe⟩
      · rintro (hl | ⟨r2, hr2, hpe⟩)
        · exact Or.inl hl
        · rcases List.mem_cons.mp hr2 with h1 | h1
          · subst h1
            obtain ⟨k0, hk0, hke⟩ := List.any_eq_true.mp h
            exact Or.inl ⟨k0, hk0, pyEq_trans hke hpe⟩
          · exact Or.inr ⟨r2, h1, hpe⟩
    · rw [keyStep_neg kf ks r h, ih (ks ++ [pyGet r kf])]
      constructor
      · rintro (hl | hr)
        · obtain ⟨k0, hk0, hke⟩ := hl
          rcases List.mem_append.mp hk0 with h1 | h1
          · exact Or.inl ⟨k0, h1, hke⟩
          · have hkr : k0 = pyGet r kf := by simpa using h1
            subst hkr
            exact Or.inr ⟨r, List.mem_cons_self r t, hke⟩
        · obtain ⟨r2, hr2, hpe⟩ := hr
          exact Or.inr ⟨r2, List.mem_cons_of_mem _ hr2, hpe⟩
      · rintro (hl | ⟨r2, hr2, hpe⟩)
        · obtain ⟨k0, hk0, hke⟩ := hl
          exact Or.inl ⟨k0, List.mem_append.mpr (Or.inl hk0), hke⟩
        · rcases List.mem_cons.mp hr2 with h1 | h1
          · subst h1
            exact Or.inl ⟨pyGet r2 kf, List.mem_append.mpr (Or.inr (by simp)), hpe⟩
          · exact Or.inr ⟨r2, h1, hpe⟩

theorem keysOf_mem_iff (kf : String) (rows : List Row) (k : Value) :
    (∃ k0 ∈ keysOf kf rows, pyEq k0 k = true) ↔
      (∃ r ∈ rows, pyEq (pyGet r kf) k = true) := by
  unfold keysOf
  rw [keysOf_mem_aux kf rows [] k]
  simp

theorem keysOf_pairwise_aux (kf : String) (rows : List Row) (ks : List Value)
    (hks : List.Pairwise (fun a b => pyEq a b = false) ks) :
    List.Pairwise (fun a b => pyEq a b = false) (List.foldl (keyStep kf) ks rows) := by
  induction rows generalizing ks with
  | nil => exact hks
  | cons r t ih =>
    simp only [List.foldl_cons]
    by_cases h : List.any ks (fun k0 => pyEq k0 (pyGet r kf)) = true
    · rw [keyStep_pos kf ks r h]
      exact ih ks hks
    · rw [keyStep_neg kf ks r h]
      refine ih _ (List.pairwise_append.mpr ⟨hks, by simp, ?_⟩)
      intro a ha b hb
      have hb2 : b = pyGet r kf := by simpa using hb
      subst hb2
      have h2 : ∀ x ∈ ks, ¬ (pyEq x (pyGet r kf) = true) := by
        intro x hx hc
        exact h (List.any_eq_true.mpr ⟨x, hx, hc⟩)
      have := h2 a ha
      simpa using this

theorem keysOf_pairwise (kf : String) (rows : List Row) :
    List.Pairwise (fun a b => pyEq a b = false) (keysOf kf rows) :=
  keysOf_pairwise_aux kf rows [] List.Pairwise.nil

theorem keysOf_group_ne_nil (kf : String) (rows : List Row) (k : Value)
    (hk : k ∈ keysOf kf rows) : groupOf kf rows k ≠ [] := by
  have := (keysOf_mem_iff kf rows k).mp ⟨k, hk, pyEq_refl k⟩
  obtain ⟨r, hr, hpe⟩ := this
  intro hc
  have : ∀ r2 ∈ rows, ¬ (pyEq (pyGet r2 kf) k = true) := by
    intro r2 hr2
    have := List.filter_eq_nil_iff.mp hc
    exact fun hpe2 => by simpa [hpe2] using this r2 hr2
  exact this r hr hpe

/-! ### The aggregation invariant. -/

/-- The value the aggregate row of a group holds for field `f` after the
whole group `g` (in row order) has been processed: the numeric sum when the
group's first row classified `f` numeric, the empty string otherwise. -/
def entryVal (sp : AggSpec) (f : String) (g : List Row) : Value :=
  match g with
  | [] => Value.null
  | r0 :: _ =>
    if isNumeric (pyGetD r0 f sp.dflt) then
      sumNumeric (List.map (fun r => pyGetD r f sp.dflt) g)
    else Value.str ""

/-- Invariant of the `aggregated` dict after processing `rows`: keys are the
group keys in first-encounter order, and each aggregate row holds the
per-group `entryVal` for every non-skipped field. -/
def StateInv (sp : AggSpec) (fields : List String) (rows : List Row) (s : AggState) : Prop :=
  List.map Prod.fst s = keysOf sp.keyField rows ∧
  ∀ p ∈ s, ∀ f ∈ fields, sp.skip f = false →
    pyGet p.2 f = entryVal sp f (groupOf sp.keyField rows p.1)

theorem setAggRow_id (s : AggState) (k : Value) (r : Row)
    (h : ∀ q ∈ s, pyEq q.1 k = false) : setAggRow s k r = s := by
  unfold setAggRow
  induction s with
  | nil => rfl
  | cons a t ih =>
    have ha := h a (List.mem_cons_self a t)
    simp only [List.map_cons, ha, Bool.false_eq_true, if_false]
    rw [ih (fun q hq => h q (List.mem_cons_of_mem _ hq))]

theorem setAggRow_map_fst (s : AggState) (k : Value) (r : Row) :
    List.map Prod.fst (setAggRow s k r) = List.map Prod.fst s := by
  unfold setAggRow
  induction s with
  | nil => rfl
  | cons a t ih =>
    by_cases h : pyEq a.1 k = true <;> simp [h, ih]

theorem find_set_spec (s : AggState) (k : Value) (r : Row)
    (hpw : List.Pairwise (fun a b => pyEq a b = false) (List.map Prod.fst s))
    (p0 : Value × Row) (hfind : List.find? (fun p => pyEq p.1 k) s = some p0) :
    p0 ∈ s ∧ pyEq p0.1 k = true ∧
      (p0.1, r) ∈ setAggRow s k r ∧
      ∀ q ∈ setAggRow s k r, q = (p0.1, r) ∨ (q ∈ s ∧ pyEq q.1 k = false) := by
  induction s with
  | nil => exact absurd hfind (by simp)
  | cons a t ih =>
    by_cases ha : pyEq a.1 k = true
    · rw [@List.find?_cons_of_pos (Value × Row) (fun p => pyEq p.1 k) a t ha] at hfind
      cases hfind
      have htk : ∀ q ∈ t, pyEq q.1 k = false := by
        intro q hq
        by_contra hc
        simp only [Bool.not_eq_false] at hc
        have h1 : pyEq k q.1 = true := pyEq_symm q.1 k ▸ hc
        have h2 : pyEq p0.1 q.1 = true := pyEq_trans ha h1
        have h3 : pyEq p0.1 q.1 = false := by
          have := (List.pairwise_cons.mp hpw).1
          exact this q.1 (List.mem_map.mpr ⟨q, hq, rfl⟩)
        rw [h3] at h2
        exact absurd h2 (by simp)
      have hsetc : setAggRow (p0 :: t) k r = (p0.1, r) :: t := by
        unfold setAggRow
        simp only [List.map_cons, ha, if_true]
        have ht : setAggRow t k r = t := setAggRow_id t k r htk
        unfold setAggRow at ht
        rw [ht]
      refine ⟨List.mem_cons_self _ _, ha, ?_, ?_⟩
      · rw [hsetc]
        exact List.mem_cons_self _ _
      · intro q hq
        rw [hsetc] at hq
        rcases List.mem_cons.mp hq with h1 | h1
        · exact Or.inl h1
        · exact Or.inr ⟨List.mem_cons_of_mem _ h1, htk q h1⟩
    · rw [@List.find?_cons_of_neg (Value × Row) (fun p => pyEq p.1 k) a t ha] at hfind
      obtain ⟨hm, hke, hmem, hchar⟩ := ih (List.pairwise_cons.mp hpw).2 hfind
      have hane : pyEq a.1 k = false := Bool.not_eq_true _ ▸ ha
      have hsetc : setAggRow (a :: t) k r = a :: setAggRow t k r := by
        unfold setAggRow
        simp only [List.map_cons, hane, Bool.false_eq_true, if_false]
      refine ⟨List.mem_cons_of_mem _ hm, hke, ?_, ?_⟩
      · rw [hsetc]
        exact List.mem_cons_of_mem _ hmem
      · intro q hq
        rw [hsetc] at hq
        rcases List.mem_cons.mp hq with h1 | h1
        · exact Or.inr ⟨h1 ▸ List.mem_cons_self a t, h1 ▸ hane⟩
        · rcases hchar q h1 with h2 | h2
          · exact Or.inl h2
          · exact Or.inr ⟨List.mem_cons_of_mem _ h2.1, h2.2⟩

theorem find_append_fresh (s : AggState) (k : Value) (x : Value × Row)
    (hnone : ∀ q ∈ s, pyEq q.1 k = false) (hx : pyEq x.1 k = true) :
    List.find? (fun p => pyEq p.1 k) (s ++ [x]) = some x := by
  rw [List.find?_append]
  have h1 : List.find? (fun p => pyEq p.1 k) s = none := by
    rw [List.find?_eq_none]
    intro q hq
    simp [hnone q hq]
  rw [h1]
  simp [List.find?, hx]

theorem setAggRow_append_fresh (s : AggState) (k : Value) (v : Row) (r : Row)
    (hnone : ∀ q ∈ s, pyEq q.1 k = false) :
    setAggRow (s ++ [(k, v)]) k r = s ++ [(k, r)] := by
  unfold setAggRow
  rw [List.map_append]
  have h1 : List.map (fun p => if pyEq p.1 k then (p.1, r) else p) s = s := by
    have := setAggRow_id s k r hnone
    unfold setAggRow at this
    exact this
  rw [h1]
  simp [pyEq_refl]

theorem any_fst_eq (s : AggState) (k : Value) :
    List.any s (fun p => pyEq p.1 k) = List.any (List.map Prod.fst s) (fun k0 => pyEq k0 k) := by
  induction s with
  | nil => rfl
  | cons a t ih => simp only [List.any_cons, List.map_cons, ih]

theorem hasAggKey_iff_keys (sp : AggSpec) (rows : List Row) (s : AggState) (k : Value)
    (hkeys : List.map Prod.fst s = keysOf sp.keyField rows) :
    hasAggKey s k = List.any (keysOf sp.keyField rows) (fun k0 => pyEq k0 k) := by
  unfold hasAggKey
  rw [any_fst_eq s k, hkeys]

theorem hasAggKey_iff_group (sp : AggSpec) (rows : List Row) (s : AggState) (k : Value)
    (hkeys : List.map Prod.fst s = keysOf sp.keyField rows) :
    hasAggKey s k = true ↔ ∃ r ∈ rows, pyEq (pyGet r sp.keyField) k = true := by
  rw [hasAggKey_iff_keys sp rows s k hkeys]
  rw [List.any_eq_true]
  exact keysOf_mem_iff sp.keyField rows k

/-- No group has a field classified text by its first row and fed a numeric
value by a later row (the situation in which `+=` raises `TypeError`). -/
def ConflictFree (sp : AggSpec) (fields : List String) (rows : List Row) : Prop :=
  ∀ f ∈ fields, sp.skip f = false →
    ∀ k r0 t, groupOf sp.keyField rows k = r0 :: t →
      isNumeric (pyGetD r0 f sp.dflt) = false →
      ∀ r ∈ t, isNumeric (pyGetD r f sp.dflt) = false

theorem sumNumeric_singleton (v : Value) (hv : isNumeric v = true) :
    sumNumeric [v] = numAdd (Value.int 0) v := by
  unfold sumNumeric
  simp [hv]

theorem entryVal_cons (sp : AggSpec) (f : String) (r0 : Row) (t : List Row) :
    entryVal sp f (r0 :: t) =
      if isNumeric (pyGetD r0 f sp.dflt) then
        sumNumeric (List.map (fun r => pyGetD r f sp.dflt) (r0 :: t))
      else Value.str "" := rfl

theorem aggStep_inv (sp : AggSpec) (fields : List String) (hnd : fields.Nodup)
    (rows : List Row) (row : Row) (s s2 : AggState)
    (hinv : StateInv sp fields rows s) (hstep : aggStep sp fields s row = some s2) :
    StateInv sp fields (rows ++ [row]) s2 := by
  obtain ⟨hkeys, hent⟩ := hinv
  have hpw : List.Pairwise (fun a b => pyEq a b = false) (List.map Prod.fst s) := by
    rw [hkeys]
    exact keysOf_pairwise sp.keyField rows
  unfold aggStep at hstep
  by_cases hk : hasAggKey s (pyGet row sp.keyField) = true
  · -- existing group
    have hins : aggInsert sp fields s row = s := by
      unfold aggInsert
      rw [if_pos hk]
    rw [hins] at hstep
    cases hfind : List.find? (fun p => pyEq p.1 (pyGet row sp.keyField)) s with
    | none =>
      unfold findAggRow at hstep
      rw [hfind] at hstep
      exact absurd hstep (by simp)
    | some p0 =>
      unfold findAggRow at hstep
      rw [hfind] at hstep
      simp only [Option.map_some'] at hstep
      cases hacc : accumAgg sp fields row p0.2 with
      | none =>
        rw [hacc] at hstep
        exact absurd hstep (by simp)
      | some agg2 =>
        rw [hacc] at hstep
        simp only [Option.map_some', Option.some.injEq] at hstep
        subst hstep
        obtain ⟨hp0mem, hp0eq, hmemnew, hchar⟩ :=
          find_set_spec s (pyGet row sp.keyField) agg2 hpw p0 hfind
        constructor
        · rw [setAggRow_map_fst, hkeys, keysOf_append_one, keyStep_pos]
          rw [← hasAggKey_iff_keys sp rows s _ hkeys]
          exact hk
        · intro q hq f hf hs
          rcases hchar q hq with hq1 | ⟨hq2, hq3⟩
          · subst hq1
            have hrowk : pyEq (pyGet row sp.keyField) p0.1 = true := by
              rw [pyEq_symm]
              exact hp0eq
            have hfst : p0.1 ∈ keysOf sp.keyField rows := by
              rw [← hkeys]
              exact List.mem_map.mpr ⟨p0, hp0mem, rfl⟩
            have hgne := keysOf_group_ne_nil sp.keyField rows p0.1 hfst
            obtain ⟨r0, t0, hg⟩ := List.exists_cons_of_ne_nil hgne
            have hold : pyGet p0.2 f = entryVal sp f (r0 :: t0) := by
              rw [← hg]
              exact hent p0 hp0mem f hf hs
            have hget := accumAgg_get hnd hacc f hf hs
            have hgapp : groupOf sp.keyField (rows ++ [row]) p0.1 =
                r0 :: (t0 ++ [row]) := by
              rw [groupOf_append, groupOf_single, if_pos hrowk, hg, List.cons_append]
            rw [hgapp, entryVal_cons]
            by_cases h0 : isNumeric (pyGetD r0 f sp.dflt) = true
            · rw [if_pos h0]
              have hsum : pyGet p0.2 f =
                  sumNumeric (List.map (fun r => pyGetD r f sp.dflt) (r0 :: t0)) := by
                rw [hold, entryVal_cons, if_pos h0]
              have hmaps : List.map (fun r => pyGetD r f sp.dflt) (r0 :: (t0 ++ [row])) =
                  List.map (fun r => pyGetD r f sp.dflt) (r0 :: t0) ++ [pyGetD row f sp.dflt] := by
                rw [← List.cons_append, List.map_append]
                rfl
              rw [hmaps, sumNumeric_append]
              by_cases hv : isNumeric (pyGetD row f sp.dflt) = true
              · rw [if_pos hv, (hget.1 hv).2, hsum]
              · rw [if_neg hv, hget.2 (Bool.not_eq_true _ ▸ hv), hsum]
            · rw [if_neg h0]
              have hstr : pyGet p0.2 f = Value.str "" := by
                rw [hold, entryVal_cons, if_neg h0]
              by_cases hv : isNumeric (pyGetD row f sp.dflt) = true
              · have := (hget.1 hv).1
                rw [hstr] at this
                exact absurd this (by simp [isNumeric])
              · rw [hget.2 (Bool.not_eq_true _ ▸ hv), hstr]
          · have hrowk2 : pyEq (pyGet row sp.keyField) q.1 = false := by
              rw [pyEq_symm]
              exact hq3
            have hgq : groupOf sp.keyField (rows ++ [row]) q.1 =
                groupOf sp.keyField rows q.1 := by
              rw [groupOf_append, groupOf_single, if_neg (by simp [hrowk2]), List.append_nil]
            rw [hgq]
            exact hent q hq2 f hf hs
  · -- fresh group
    have hins : aggInsert sp fields s row =
        s ++ [(pyGet row sp.keyField, seedAgg sp fields row)] := by
      unfold aggInsert
      rw [if_neg hk]
    rw [hins] at hstep
    have hnone : ∀ q ∈ s, pyEq q.1 (pyGet row sp.keyField) = false := by
      intro q hq
      by_contra hc
      simp only [Bool.not_eq_false] at hc
      exact hk (List.any_eq_true.mpr ⟨q, hq, hc⟩)
    have hfind := find_append_fresh s (pyGet row sp.keyField)
      (pyGet row sp.keyField, seedAgg sp fields row) hnone (pyEq_refl _)
    unfold findAggRow at hstep
    rw [hfind] at hstep
    simp only [Option.map_some'] at hstep
    cases hacc : accumAgg sp fields row (seedAgg sp fields row) with
    | none =>
      rw [hacc] at hstep
      exact absurd hstep (by simp)
    | some agg2 =>
      rw [hacc] at hstep
      simp only [Option.map_some', Option.some.injEq] at hstep
      rw [setAggRow_append_fresh s _ _ agg2 hnone] at hstep
      subst hstep
      have hgnil : groupOf sp.keyField rows (pyGet row sp.keyField) = [] := by
        unfold groupOf
        rw [List.filter_eq_nil_iff]
        intro r hr
        intro hc
        exact hk ((hasAggKey_iff_group sp rows s _ hkeys).mpr ⟨r, hr, hc⟩)
      constructor
      · rw [List.map_append, hkeys, keysOf_append_one, keyStep_neg]
        · rfl
        · rw [← hasAggKey_iff_keys sp rows s _ hkeys]
          exact hk
      · intro q hq f hf hs
        rcases List.mem_append.mp hq with hq1 | hq1
        · have hrowk2 : pyEq (pyGet row sp.keyField) q.1 = false := by
            rw [pyEq_symm]
            exact hnone q hq1
          have hgq : groupOf sp.keyField (rows ++ [row]) q.1 =
              groupOf sp.keyField rows q.1 := by
            rw [groupOf_append, groupOf_single, if_neg (by simp [hrowk2]), List.append_nil]
          rw [hgq]
          exact hent q hq1 f hf hs
        · have hq2 : q = (pyGet row sp.keyField, agg2) := by simpa using hq1
          subst hq2
          have hgq : groupOf sp.keyField (rows ++ [row]) (pyGet row sp.keyField) = [row] := by
            rw [groupOf_append, groupOf_single, if_pos (pyEq_refl _), hgnil, List.nil_append]
          rw [hgq, entryVal_cons]
          have hseed : pyGet (seedAgg sp fields row) f = seedCell sp row f :=
            pyGet_seedAgg sp fields row f hnd hf hs
          have hget := accumAgg_get hnd hacc f hf hs
          by_cases hv : isNumeric (pyGetD row f sp.dflt) = true
          · rw [if_pos hv, (hget.1 hv).2, hseed]
            unfold seedCell
            rw [if_pos hv]
            have : List.map (fun r => pyGetD r f sp.dflt) [row] = [pyGetD row f sp.dflt] := rfl
            rw [this, sumNumeric_singleton _ hv]
          · rw [if_neg hv, hget.2 (Bool.not_eq_true _ ▸ hv), hseed]
            unfold seedCell
            rw [if_neg hv]

theorem aggStep_isSome (sp : AggSpec) (fields : List String) (hnd : fields.Nodup)
    (rows : List Row) (row : Row) (rest : List Row) (s : AggState)
    (hinv : StateInv sp fields rows s)
    (hcf : ConflictFree sp fields (rows ++ row :: rest)) :
    (aggStep sp fields s row).isSome = true := by
  obtain ⟨hkeys, hent⟩ := hinv
  unfold aggStep
  by_cases hk : hasAggKey s (pyGet row sp.keyField) = true
  · have hins : aggInsert sp fields s row = s := by
      unfold aggInsert
      rw [if_pos hk]
    rw [hins]
    have hfs : (List.find? (fun p => pyEq p.1 (pyGet row sp.keyField)) s).isSome = true := by
      rw [List.find?_isSome]
      obtain ⟨q, hq, hqe⟩ := List.any_eq_true.mp hk
      exact ⟨q, hq, hqe⟩
    obtain ⟨p0, hfind⟩ := Option.isSome_iff_exists.mp hfs
    have hp0mem : p0 ∈ s := List.mem_of_find?_eq_some hfind
    have hp0eq : pyEq p0.1 (pyGet row sp.keyField) = true :=
      @List.find?_some (Value × Row) (fun p => pyEq p.1 (pyGet row sp.keyField)) p0 s hfind
    unfold findAggRow
    rw [hfind]
    simp only [Option.map_some']
    have hcrit : ∀ f ∈ fields, sp.skip f = false →
        isNumeric (pyGetD row f sp.dflt) = true → isNumeric (pyGet p0.2 f) = true := by
      intro f hf hs2 hv
      have hfst : p0.1 ∈ keysOf sp.keyField rows := by
        rw [← hkeys]
        exact List.mem_map.mpr ⟨p0, hp0mem, rfl⟩
      obtain ⟨r0, t0, hg⟩ :=
        List.exists_cons_of_ne_nil (keysOf_group_ne_nil sp.keyField rows p0.1 hfst)
      have hold : pyGet p0.2 f = entryVal sp f (r0 :: t0) := by
        rw [← hg]
        exact hent p0 hp0mem f hf hs2
      by_cases h0 : isNumeric (pyGetD r0 f sp.dflt) = true
      · rw [hold, entryVal_cons, if_pos h0]
        exact isNumeric_sumNumeric _
      · exfalso
        have hrowk : pyEq (pyGet row sp.keyField) p0.1 = true := by
          rw [pyEq_symm]
          exact hp0eq
        have hgfull : groupOf sp.keyField (rows ++ row :: rest) p0.1 =
            r0 :: (t0 ++ row :: groupOf sp.keyField rest p0.1) := by
          rw [groupOf_append, hg]
          have : groupOf sp.keyField (row :: rest) p0.1 =
              row :: groupOf sp.keyField rest p0.1 := by
            unfold groupOf
            rw [List.filter_cons, if_pos (by simp [hrowk])]
          rw [this, List.cons_append]
        have hmem : row ∈ t0 ++ row :: groupOf sp.keyField rest p0.1 :=
          List.mem_append.mpr (Or.inr (List.mem_cons_self _ _))
        have := hcf f hf hs2 p0.1 r0 _ hgfull (Bool.not_eq_true _ ▸ h0) row hmem
        rw [hv] at this
        exact absurd this (by simp)
    have := accumAgg_isSome hcrit
    obtain ⟨agg2, hacc⟩ := Option.isSome_iff_exists.mp this
    rw [hacc]
    rfl
  · have hins : aggInsert sp fields s row =
        s ++ [(pyGet row sp.keyField, seedAgg sp fields row)] := by
      unfold aggInsert
      rw [if_neg hk]
    rw [hins]
    have hnone : ∀ q ∈ s, pyEq q.1 (pyGet row sp.keyField) = false := by
      intro q hq
      by_contra hc
      simp only [Bool.not_eq_false] at hc
      exact hk (List.any_eq_true.mpr ⟨q, hq, hc⟩)
    have hfind := find_append_fresh s (pyGet row sp.keyField)
      (pyGet row sp.keyField, seedAgg sp fields row) hnone (pyEq_refl _)
    unfold findAggRow
    rw [hfind]
    simp only [Option.map_some']
    have hcrit : ∀ f ∈ fields, sp.skip f = false →
        isNumeric (pyGetD row f sp.dflt) = true →
        isNumeric (pyGet (seedAgg sp fields row) f) = true := by
      intro f hf hs2 hv
      rw [pyGet_seedAgg sp fields row f hnd hf hs2]
      unfold seedCell
      rw [if_pos hv]
      rfl
    have := accumAgg_isSome hcrit
    obtain ⟨agg2, hacc⟩ := Option.isSome_iff_exists.mp this
    rw [hacc]
    rfl

theorem aggFold_main (sp : AggSpec) (fields : List String) (hnd : fields.Nodup) :
    ∀ (rest p : List Row) (s : AggState), StateInv sp fields p s →
      (∀ s2, List.foldlM (aggStep sp fields) s rest = some s2 →
        StateInv sp fields (p ++ rest) s2) ∧
      (ConflictFree sp fields (p ++ rest) →
        (List.foldlM (aggStep sp fields) s rest).isSome = true) := by
  intro rest
  induction rest with
  | nil =>
    intro p s hinv
    constructor
    · intro s2 h
      simp only [List.foldlM_nil, Option.pure_def, Option.some.injEq] at h
      subst h
      simpa using hinv
    · intro _
      simp
  | cons row t ih =>
    intro p s hinv
    have hassoc : (p ++ [row]) ++ t = p ++ row :: t := by simp
    constructor
    · intro s2 h
      simp only [List.foldlM_cons] at h
      cases hstep : aggStep sp fields s row with
      | none =>
        rw [hstep] at h
        exact absurd h (by simp)
      | some s1 =>
        rw [hstep] at h
        simp only [Option.bind_eq_bind, Option.some_bind] at h
        have hinv1 := aggStep_inv sp fields hnd p row s s1 hinv hstep
        have := (ih (p ++ [row]) s1 hinv1).1 s2 h
        rwa [hassoc] at this
    · intro hcf
      have hcf2 : ConflictFree sp fields (p ++ row :: t) := hcf
      have hsome := aggStep_isSome sp fields hnd p row t s hinv hcf2
      obtain ⟨s1, hstep⟩ := Option.isSome_iff_exists.mp hsome
      have hinv1 := aggStep_inv sp fields hnd p row s s1 hinv hstep
      have := (ih (p ++ [row]) s1 hinv1).2 (hassoc ▸ hcf)
      simp only [List.foldlM_cons, hstep, Option.bind_eq_bind, Option.some_bind]
      exact this

theorem aggAssoc_inv (sp : AggSpec) (rows : List Row) (fields : List String)
    (hnd : fields.Nodup) (s : AggState) (h : aggAssoc sp rows fields = some s) :
    StateInv sp fields rows s := by
  have hinv0 : StateInv sp fields [] [] := by
    refine ⟨rfl, ?_⟩
    intro p hp
    exact absurd hp (List.not_mem_nil p)
  have := (aggFold_main sp fields hnd rows [] [] hinv0).1 s h
  simpa using this

theorem aggAssoc_total (sp : AggSpec) (rows : List Row) (fields : List String)
    (hnd : fields.Nodup) (hcf : ConflictFree sp fields rows) :
    (aggAssoc sp rows fields).isSome = true := by
  have hinv0 : StateInv sp fields [] [] := by
    refine ⟨rfl, ?_⟩
    intro p hp
    exact absurd hp (List.not_mem_nil p)
  exact (aggFold_main sp fields hnd rows [] [] hinv0).2 (by simpa using hcf)

theorem rowHasKey_of_pyGet_ne_null (r : Row) (k : String) (h : pyGet r k ≠ Value.null) :
    rowHasKey r k = true := by
  induction r with
  | nil => exact absurd rfl h
  | cons a t ih =>
    by_cases ha : (a.1 == k) = true
    · simp [rowHasKey, ha]
    · have h2 : pyGet (a :: t) k = pyGet t k := by
        simp [pyGet, pyGetD, rowGet, ha]
      rw [h2] at h
      simp [rowHasKey, ha, ih h]

theorem foldl_numAdd_bools (bs : List Bool) (n : Int) :
    List.foldl numAdd (Value.int n) (List.map Value.bool bs) =
      Value.int (n + (List.count true bs : Int)) := by
  induction bs generalizing n with
  | nil => simp
  | cons b t ih =>
    simp only [List.map_cons, List.foldl_cons]
    have hstep : numAdd (Value.int n) (Value.bool b) =
        Value.int (n + if b then 1 else 0) := by
      cases b <;> simp [numAdd, isFloat, toInt]
    rw [hstep, ih]
    cases b
    · simp [List.count_cons]
    · simp [List.count_cons]
      ring_nf

theorem sumNumeric_bools (bs : List Bool) :
    sumNumeric (List.map Value.bool bs) = Value.int (List.count true bs) := by
  unfold sumNumeric
  have hfil : List.filter isNumeric (List.map Value.bool bs) = List.map Value.bool bs := by
    rw [List.filter_eq_self]
    intro v hv
    obtain ⟨b, _, hb⟩ := List.mem_map.mp hv
    rw [← hb]
    rfl
  rw [hfil, foldl_numAdd_bools bs 0]
  simp

theorem accountSpec_skip (f : String) : accountSpec.skip f = false := rfl

theorem platformSpec_skip (f : String) : platformSpec.skip f = (f == "Platform") := rfl

/-! ### Claim theorems: the aggregators. -/

/-- C1 (amended): whenever `aggregate_by_account` completes without raising
(`aggAssoc … = some s`; a `TypeError` is raised exactly if a text-seeded
field meets a later numeric value) and the field list has no duplicates
(a duplicated field is added once per occurrence), the output lists the
groups in first-encounter order of the `Account` key, a field classified
numeric at the group's first row holds the numeric sum of the field's
numeric values over the group's rows, and a field whose first-seen value is
non-numeric is emitted as the empty string. -/
theorem C1_aggregate_by_account_sums (rows : List Row) (fields : List String)
    (hnd : fields.Nodup) (s : AggState)
    (h : aggAssoc accountSpec rows fields = some s) :
    aggregate_by_account rows fields = some (List.map (fun p => p.2) s) ∧
    List.map Prod.fst s = keysOf "Account" rows ∧
    ∀ p ∈ s, ∀ f ∈ fields, ∀ r0 t, groupOf "Account" rows p.1 = r0 :: t →
      (isNumeric (pyGet r0 f) = true →
        isNumeric (pyGet p.2 f) = true ∧
        toRat (pyGet p.2 f) =
          ratSum (List.map (fun r => pyGet r f) (groupOf "Account" rows p.1))) ∧
      (isNumeric (pyGet r0 f) = false → pyGet p.2 f = Value.str "") := by
  obtain ⟨hkeys, hent⟩ := aggAssoc_inv accountSpec rows fields hnd s h
  refine ⟨?_, hkeys, ?_⟩
  · unfold aggregate_by_account
    rw [h]
    rfl
  · intro p hp f hf r0 t hg
    have he := hent p hp f hf (accountSpec_skip f)
    have hgeq : groupOf accountSpec.keyField rows p.1 = r0 :: t := hg
    rw [hgeq, entryVal_cons] at he
    constructor
    · intro h0
      rw [if_pos (show isNumeric (pyGetD r0 f accountSpec.dflt) = true from h0)] at he
      constructor
      · rw [he]
        exact isNumeric_sumNumeric _
      · rw [he, toRat_sumNumeric, hg]
        rfl
    · intro h0
      rw [if_neg (show ¬ isNumeric (pyGetD r0 f accountSpec.dflt) = true from by
        rw [show isNumeric (pyGetD r0 f accountSpec.dflt) = isNumeric (pyGet r0 f) from rfl, h0]
        simp)] at he
      exact he

def c1r1 : Row :=
  [("Account", Value.str "A"), ("Platform", Value.str "meta_ads"),
   ("spend", Value.int 10), ("Campaign", Value.str "X")]

def c1r2 : Row :=
  [("Account", Value.str "A"), ("Platform", Value.str "meta_ads"),
   ("spend", Value.int 20), ("Campaign", Value.str "Y")]

def c1Out : Row :=
  [("Platform", Value.str "meta_ads"), ("Account", Value.str "A"),
   ("spend", Value.int 30), ("Campaign", Value.str "")]

def c1State : AggState := [(Value.str "A", c1Out)]

/-- C1 witness: two rows of the same account with `spend` 10 and 20 and text
`Campaign` values aggregate to `spend` 30 and `Campaign` `""`. -/
theorem C1_aggregate_by_account_sums_witness :
    aggregate_by_account [c1r1, c1r2] ["spend", "Campaign"] = some [c1Out] ∧
    isNumeric (pyGet c1Out "spend") = true ∧
    toRat (pyGet c1Out "spend") = 30 ∧
    pyGet c1Out "Campaign" = Value.str "" := by
  have h := C1_aggregate_by_account_sums [c1r1, c1r2] ["spend", "Campaign"]
    (by decide) c1State (by decide)
  have hp : (Value.str "A", c1Out) ∈ c1State := List.mem_cons_self _ _
  have hg : groupOf "Account" [c1r1, c1r2] (Value.str "A", c1Out).1 = c1r1 :: [c1r2] := by
    decide
  have h1 := h.2.2 (Value.str "A", c1Out) hp "spend" (by simp) c1r1 [c1r2] hg
  have h2 := h.2.2 (Value.str "A", c1Out) hp "Campaign" (by simp) c1r1 [c1r2] hg
  have hs1 := h1.1 (by decide)
  refine ⟨h.1, hs1.1, ?_, h2.2 (by decide)⟩
  rw [hs1.2]
  have hm : List.map (fun r => pyGet r "spend")
      (groupOf "Account" [c1r1, c1r2] (Value.str "A", c1Out).1) =
      [Value.int 10, Value.int 20] := by decide
  rw [hm]
  norm_num [ratSum, toRat, isNumeric]

/-- C1 counterexample: a group whose `spend` is text in the first row and
numeric in the second makes `aggregate_by_account` raise a `TypeError`
(no aggregated output at all), and a duplicated field list entry makes the
emitted value twice the row's value (20 from a single `spend` of 10, not the
sum 10). -/
theorem C1_aggregate_by_account_sums_counterexample :
    aggregate_by_account
        [[("Account", Value.str "A"), ("spend", Value.str "x")],
         [("Account", Value.str "A"), ("spend", Value.int 10)]] ["spend"] = none ∧
    aggregate_by_account [[("Account", Value.str "B"), ("spend", Value.int 10)]]
        ["spend", "spend"] =
      some [[("Platform", Value.null), ("Account", Value.str "B"),
             ("spend", Value.int 20)]] := by
  exact ⟨by decide, by decide⟩

/-- C3 (amended): in `aggregate_by_account`, a non-numeric row value is
silently skipped (the accumulation step returns the aggregate row unchanged,
raising nothing); but the guard checks only the row's value, so when a
text-seeded cell meets a numeric value `+=` raises a `TypeError` — the
aggregation is error-free exactly on conflict-free inputs, and on those a
completed aggregation leaves every text-seeded field at the empty string. -/
theorem C3_aggregate_by_account_skip_policy :
    (∀ (row acc : Row) (f : String), isNumeric (pyGet row f) = false →
      accumCell accountSpec row acc f = some acc) ∧
    (∀ (s2 : String) (v : Value), isNumeric v = true →
      pyAdd (Value.str s2) v = none) ∧
    (∀ rows fields, fields.Nodup → ConflictFree accountSpec fields rows →
      (aggregate_by_account rows fields).isSome = true) ∧
    (∀ rows fields, fields.Nodup → ∀ s, aggAssoc accountSpec rows fields = some s →
      ∀ p ∈ s, ∀ f ∈ fields, ∀ r0 t, groupOf "Account" rows p.1 = r0 :: t →
        isNumeric (pyGet r0 f) = false → pyGet p.2 f = Value.str "") := by
  refine ⟨?_, ?_, ?_, ?_⟩
  · intro row acc f hv
    unfold accumCell
    rw [if_neg (show ¬ accountSpec.skip f = true from by rw [accountSpec_skip]; simp)]
    rw [if_neg (show ¬ isNumeric (pyGetD row f accountSpec.dflt) = true from by
      rw [show isNumeric (pyGetD row f accountSpec.dflt) = isNumeric (pyGet row f) from rfl, hv]
      simp)]
  · intro s2 v hv
    exact pyAdd_none_of_numeric _ v rfl hv
  · intro rows fields hnd hcf
    unfold aggregate_by_account
    obtain ⟨s, hs⟩ := Option.isSome_iff_exists.mp (aggAssoc_total accountSpec rows fields hnd hcf)
    rw [hs]
    rfl
  · intro rows fields hnd s h p hp f hf r0 t hg h0
    obtain ⟨hkeys, hent⟩ := aggAssoc_inv accountSpec rows fields hnd s h
    have he := hent p hp f hf (accountSpec_skip f)
    have hgeq : groupOf accountSpec.keyField rows p.1 = r0 :: t := hg
    rw [hgeq, entryVal_cons, if_neg (show ¬ isNumeric (pyGetD r0 f accountSpec.dflt) = true from by
      rw [show isNumeric (pyGetD r0 f accountSpec.dflt) = isNumeric (pyGet r0 f) from rfl, h0]
      simp)] at he
    exact he

def c3r1 : Row :=
  [("Account", Value.str "C"), ("clicks", Value.int 1), ("note", Value.str "a")]

def c3Out : Row :=
  [("Platform", Value.null), ("Account", Value.str "C"),
   ("clicks", Value.int 1), ("note", Value.str "")]

def c3State : AggState := [(Value.str "C", c3Out)]

/-- C3 witness: a non-numeric value is skipped without error, a text cell
plus a numeric value is the raising combination, a conflict-free input
aggregates successfully, and its text-seeded field is emitted empty. -/
theorem C3_aggregate_by_account_skip_policy_witness :
    accumCell accountSpec c3r1 [("clicks", Value.int 7)] "note" =
      some [("clicks", Value.int 7)] ∧
    pyAdd (Value.str "") (Value.int 1) = none ∧
    (aggregate_by_account [c3r1] ["clicks", "note"]).isSome = true ∧
    pyGet c3Out "note" = Value.str "" := by
  have h := C3_aggregate_by_account_skip_policy
  refine ⟨h.1 c3r1 [("clicks", Value.int 7)] "note" (by decide),
          h.2.1 "" (Value.int 1) (by decide), ?_, ?_⟩
  · refine h.2.2.1 [c3r1] ["clicks", "note"] (by decide) ?_
    intro f hf hs2 k r0 t hg h0 r hr
    rw [groupOf_single] at hg
    by_cases hk : pyEq (pyGet c3r1 accountSpec.keyField) k = true
    · rw [if_pos hk] at hg
      cases hg
      exact absurd hr (List.not_mem_nil r)
    · rw [if_neg hk] at hg
      exact absurd hg (by simp)
  · exact h.2.2.2 [c3r1] ["clicks", "note"] (by decide) c3State (by decide)
      (Value.str "C", c3Out) (List.mem_cons_self _ _) "note" (by simp) c3r1 [] (by decide)
      (by decide)

/-- C3 counterexample: `clicks` is text in the group's first row and numeric
in the second; the accumulated cell is the string `""` and the numeric value
makes `+=` raise, so the aggregation errors instead of never raising. -/
theorem C3_aggregate_by_account_skip_policy_counterexample :
    aggregate_by_account
        [[("Account", Value.str "D"), ("clicks", Value.str "n/a")],
         [("Account", Value.str "D"), ("clicks", Value.int 5)]] ["clicks"] = none := by
  decide

/-- Shared kernel for C8: a field whose values over a completed group are all
booleans ends as the int count of `True`s (seeded `0`, `+1` per `True`,
`+0` per `False`). -/
theorem agg_bool_entry (sp : AggSpec) (rows : List Row) (fields : List String)
    (hnd : fields.Nodup) (s : AggState) (h : aggAssoc sp rows fields = some s)
    (p : Value × Row) (hp : p ∈ s) (f : String) (hf : f ∈ fields)
    (hs2 : sp.skip f = false) (bs : List Bool)
    (hmap : List.map (fun r => pyGetD r f sp.dflt) (groupOf sp.keyField rows p.1) =
      List.map Value.bool bs)
    (hne : bs ≠ []) :
    pyGet p.2 f = Value.int (List.count true bs) := by
  obtain ⟨hkeys, hent⟩ := aggAssoc_inv sp rows fields hnd s h
  have he := hent p hp f hf hs2
  cases hg : groupOf sp.keyField rows p.1 with
  | nil =>
    rw [hg] at hmap
    cases bs with
    | nil => exact absurd rfl hne
    | cons b bt => exact absurd hmap.symm (by simp)
  | cons r0 t =>
    rw [hg] at he hmap
    cases bs with
    | nil => exact absurd hmap (by simp)
    | cons b0 bt =>
      simp only [List.map_cons, List.cons.injEq] at hmap
      rw [entryVal_cons, if_pos (by rw [hmap.1]; rfl)] at he
      rw [he, show List.map (fun r => pyGetD r f sp.dflt) (r0 :: t) =
        List.map Value.bool (b0 :: bt) from by
          simp only [List.map_cons, List.cons.injEq]
          exact hmap]
      exact sumNumeric_bools _

/-- C8: both aggregators classify booleans numeric; a group whose values for
a field are all booleans is seeded at 0 and summed with `True` counting 1 and
`False` counting 0, in `aggregate_by_account` and `aggregate_by_platform`
alike (`numAdd` adds exactly 1 per `True` to a numeric accumulator). -/
theorem C8_bool_values_summed :
    (∀ b, isNumeric (Value.bool b) = true) ∧
    (∀ (e : Value) (b : Bool), isNumeric e = true →
      toRat (numAdd e (Value.bool b)) = toRat e + (if b then 1 else 0)) ∧
    (∀ rows fields, fields.Nodup → ∀ s, aggAssoc accountSpec rows fields = some s →
      ∀ p ∈ s, ∀ f ∈ fields, ∀ bs : List Bool,
        List.map (fun r => pyGet r f) (groupOf "Account" rows p.1) =
          List.map Value.bool bs →
        bs ≠ [] → pyGet p.2 f = Value.int (List.count true bs)) ∧
    (∀ rows all_fields, all_fields.Nodup → ∀ s,
      aggAssoc platformSpec rows all_fields = some s →
      ∀ p ∈ s, ∀ f ∈ all_fields, (f == "Platform") = false → ∀ bs : List Bool,
        List.map (fun r => pyGetD r f (Value.str "")) (groupOf "Platform" rows p.1) =
          List.map Value.bool bs →
        bs ≠ [] → pyGet p.2 f = Value.int (List.count true bs)) := by
  refine ⟨fun b => rfl, ?_, ?_, ?_⟩
  · intro e b he
    rw [toRat_numAdd e (Value.bool b) he rfl]
    rfl
  · intro rows fields hnd s h p hp f hf bs hmap hne
    exact agg_bool_entry accountSpec rows fields hnd s h p hp f hf (accountSpec_skip f)
      bs hmap hne
  · intro rows all_fields hnd s h p hp f hf hfp bs hmap hne
    exact agg_bool_entry platformSpec rows all_fields hnd s h p hp f hf
      ((platformSpec_skip f).trans hfp) bs hmap hne

def c8r1 : Row :=
  [("Account", Value.str "A"), ("Platform", Value.str "p"), ("flag", Value.bool true)]

def c8r2 : Row :=
  [("Account", Value.str "A"), ("Platform", Value.str "p"), ("flag", Value.bool false)]

def c8r3 : Row :=
  [("Account", Value.str "A"), ("Platform", Value.str "p"), ("flag", Value.bool true)]

def c8OutA : Row :=
  [("Platform", Value.str "p"), ("Account", Value.str "A"), ("flag", Value.int 2)]

def c8OutP : Row :=
  [("Platform", Value.str "p"), ("flag", Value.int 2)]

/-- C8 witness: three rows with `flag` `True, False, True` aggregate to the
int 2 under both aggregators. -/
theorem C8_bool_values_summed_witness :
    isNumeric (Value.bool true) = true ∧
    pyGet c8OutA "flag" = Value.int 2 ∧
    pyGet c8OutP "flag" = Value.int 2 := by
  have h := C8_bool_values_summed
  refine ⟨h.1 true, ?_, ?_⟩
  · have := h.2.2.1 [c8r1, c8r2, c8r3] ["flag"] (by decide)
      [(Value.str "A", c8OutA)] (by decide) (Value.str "A", c8OutA)
      (List.mem_cons_self _ _) "flag" (by simp) [true, false, true] (by decide) (by decide)
    simpa using this
  · have := h.2.2.2 [c8r1, c8r2, c8r3] ["flag"] (by decide)
      [(Value.str "p", c8OutP)] (by decide) (Value.str "p", c8OutP)
      (List.mem_cons_self _ _) "flag" (by simp) (by decide) [true, false, true]
      (by decide) (by decide)
    simpa using this

/-- C4 (amended): `aggregate_by_platform` skips only the `Platform` field,
so whenever `Account` is in the supplied field list (as it always is from
`get_all_insights`, which pins `["Platform", "Account"]` first), every
aggregated row DOES carry an `Account` key — blanked to `""` for a
text-valued account or a numeric 0/sum otherwise — and `geral_summary`
renders with the same field list, so its header line includes `Account`. -/
theorem C4_platform_summary_account_column (rows : List Row) (all_fields : List String)
    (hnd : all_fields.Nodup) (hmem : "Account" ∈ all_fields) (s : AggState)
    (h : aggAssoc platformSpec rows all_fields = some s) :
    aggregate_by_platform rows all_fields = some (List.map (fun p => p.2) s) ∧
    (∀ p ∈ s, rowHasKey p.2 "Account" = true ∧
      (pyGet p.2 "Account" = Value.str "" ∨ isNumeric (pyGet p.2 "Account") = true)) ∧
    geral_summary_csv rows all_fields =
      some (csvRecord all_fields ++
        String.join (List.map (fun row => csvRecord (List.map (csvCell row) all_fields))
          (List.map (fun p => p.2) s))) := by
  obtain ⟨hkeys, hent⟩ := aggAssoc_inv platformSpec rows all_fields hnd s h
  have hagg : aggregate_by_platform rows all_fields = some (List.map (fun p => p.2) s) := by
    unfold aggregate_by_platform
    rw [h]
    rfl
  refine ⟨hagg, ?_, ?_⟩
  · intro p hp
    have he := hent p hp "Account" hmem rfl
    have hval : pyGet p.2 "Account" = Value.str "" ∨
        isNumeric (pyGet p.2 "Account") = true := by
      cases hg : groupOf platformSpec.keyField rows p.1 with
      | nil =>
        exact absurd hg (keysOf_group_ne_nil platformSpec.keyField rows p.1
          (hkeys ▸ List.mem_map.mpr ⟨p, hp, rfl⟩))
      | cons r0 t =>
        rw [hg, entryVal_cons] at he
        by_cases h0 : isNumeric (pyGetD r0 "Account" platformSpec.dflt) = true
        · rw [if_pos h0] at he
          exact Or.inr (he ▸ isNumeric_sumNumeric _)
        · rw [if_neg h0] at he
          exact Or.inl he
    refine ⟨rowHasKey_of_pyGet_ne_null p.2 "Account" ?_, hval⟩
    rcases hval with h1 | h1
    · rw [h1]
      simp
    · intro hc
      rw [hc] at h1
      exact absurd h1 (by simp [isNumeric])
  · unfold geral_summary_csv
    rw [hagg]
    rfl

def c4Rows : List Row :=
  [[("Platform", Value.str "meta_ads"), ("Account", Value.str "B"), ("clicks", Value.int 3)],
   [("Platform", Value.str "meta_ads"), ("Account", Value.str "C"), ("clicks", Value.int 4)]]

def c4Out : Row :=
  [("Platform", Value.str "meta_ads"), ("Account", Value.str ""), ("clicks", Value.int 7)]

/-- C4 witness: with `Account` in the field list, the per-platform aggregate
row carries an (emptied) `Account` entry. -/
theorem C4_platform_summary_account_column_witness :
    aggregate_by_platform c4Rows ["Platform", "Account", "clicks"] = some [c4Out] ∧
    rowHasKey c4Out "Account" = true ∧
    (pyGet c4Out "Account" = Value.str "" ∨ isNumeric (pyGet c4Out "Account") = true) := by
  have h := C4_platform_summary_account_column c4Rows ["Platform", "Account", "clicks"]
    (by decide) (by simp) [(Value.str "meta_ads", c4Out)] (by decide)
  have h2 := h.2.1 (Value.str "meta_ads", c4Out) (List.mem_cons_self _ _)
  exact ⟨h.1, h2.1, h2.2⟩

/-- C4 counterexample: one input row with `Account` present and
`all_fields = [Platform, Account, spend]`: the aggregated row DOES carry an
`Account` key and the rendered summary DOES have an `Account` header. -/
theorem C4_platform_summary_account_column_counterexample :
    aggregate_by_platform
        [[("Platform", Value.str "ga4"), ("Account", Value.str "A"), ("spend", Value.int 7)]]
        ["Platform", "Account", "spend"] =
      some [[("Platform", Value.str "ga4"), ("Account", Value.str ""),
             ("spend", Value.int 7)]] ∧
    rowHasKey [("Platform", Value.str "ga4"), ("Account", Value.str ""),
      ("spend", Value.int 7)] "Account" = true ∧
    geral_summary_csv
        [[("Platform", Value.str "ga4"), ("Account", Value.str "A"), ("spend", Value.int 7)]]
        ["Platform", "Account", "spend"] =
      some "Platform,Account,spend\r\nga4,,7\r\n" := by
  refine ⟨by decide, by decide, by decide⟩

/-! ### Claim theorems: pagination. -/

theorem get_accounts_go_eq (fetch : Nat → Option PageResponse) :
    ∀ fuel page acc, get_accounts_go fetch fuel page acc = paginate_go fetch fuel page acc := by
  intro fuel
  induction fuel with
  | zero => intro page acc; rfl
  | succ n ih =>
    intro page acc
    unfold get_accounts_go paginate_go
    cases hf : fetch page with
    | none => rfl
    | some data =>
      by_cases hi : (data.items.getD []).isEmpty = true
      · simp [hi]
      · by_cases hp : pagCurrent data.pagination ≥ pagTotal data.pagination
        · simp [hi, hp]
        · simp [hi, hp, ih]

theorem get_fields_go_eq (fetch : Nat → Option PageResponse) :
    ∀ fuel page acc, get_fields_go fetch fuel page acc = paginate_go fetch fuel page acc := by
  intro fuel
  induction fuel with
  | zero => intro page acc; rfl
  | succ n ih =>
    intro page acc
    unfold get_fields_go paginate_go
    cases hf : fetch page with
    | none => rfl
    | some data =>
      by_cases hi : (data.items.getD []).isEmpty = true
      · simp [hi]
      · by_cases hp : pagCurrent data.pagination ≥ pagTotal data.pagination
        · simp [hi, hp]
        · simp [hi, hp, ih]

theorem get_insights_go_eq (fetch : Nat → Option PageResponse) :
    ∀ fuel page acc, get_insights_go fetch fuel page acc = paginate_go fetch fuel page acc := by
  intro fuel
  induction fuel with
  | zero => intro page acc; rfl
  | succ n ih =>
    intro page acc
    unfold get_insights_go paginate_go
    cases hf : fetch page with
    | none => rfl
    | some data =>
      by_cases hi : (data.items.getD []).isEmpty = true
      · simp [hi]
      · by_cases hp : pagCurrent data.pagination ≥ pagTotal data.pagination
        · simp [hi, hp]
        · simp [hi, hp, ih]

/-- C2: the accounts, fields and insights loops are instances of one
pagination policy (`paginate_go`, with `get_fields` adding only the
`field["value"]` projection), and that policy stops with the accumulated
items on a failed fetch, stops on an absent or empty extracted array, stops
when `pagination.current >= pagination.total` with both defaulting to 1 when
missing, and in particular consults only page 1 when the page-1 response
has no `pagination` key (exactly one page is fetched). -/
theorem C2_pagination_policy :
    (∀ fuel fetch, get_accounts fuel fetch = paginate fuel fetch) ∧
    (∀ fuel fetch, get_fields fuel fetch = (paginate fuel fetch).map
      (fun fields => List.mapM (fun field => rowGet field "value") fields)) ∧
    (∀ fuel fetch, get_insights fuel fetch = paginate fuel fetch) ∧
    (∀ (fetch : Nat → Option PageResponse) fuel page acc, fetch page = none →
      paginate_go fetch (fuel + 1) page acc = some acc) ∧
    (∀ (fetch : Nat → Option PageResponse) fuel page acc r, fetch page = some r →
      (r.items.getD []).isEmpty = true →
      paginate_go fetch (fuel + 1) page acc = some acc) ∧
    (∀ (fetch : Nat → Option PageResponse) fuel page acc r, fetch page = some r →
      (r.items.getD []).isEmpty = false →
      pagCurrent r.pagination ≥ pagTotal r.pagination →
      paginate_go fetch (fuel + 1) page acc = some (acc ++ r.items.getD [])) ∧
    (∀ (fetch : Nat → Option PageResponse) fuel r, fetch 1 = some r →
      r.pagination = none →
      paginate (fuel + 1) fetch = some (r.items.getD [])) := by
  refine ⟨?_, ?_, ?_, ?_, ?_, ?_, ?_⟩
  · intro fuel fetch
    unfold get_accounts paginate
    exact get_accounts_go_eq fetch fuel 1 []
  · intro fuel fetch
    unfold get_fields paginate
    rw [get_fields_go_eq fetch fuel 1 []]
  · intro fuel fetch
    unfold get_insights paginate
    exact get_insights_go_eq fetch fuel 1 []
  · intro fetch fuel page acc hf
    unfold paginate_go
    rw [hf]
  · intro fetch fuel page acc r hf hi
    unfold paginate_go
    rw [hf]
    simp [hi]
  · intro fetch fuel page acc r hf hi hp
    unfold paginate_go
    rw [hf]
    simp [hi, hp]
  · intro fetch fuel r hf hpag
    unfold paginate paginate_go
    rw [hf]
    by_cases hi : (r.items.getD []).isEmpty = true
    · simp only [hi, if_true]
      rw [List.isEmpty_iff.mp hi]
    · have hge : pagCurrent r.pagination ≥ pagTotal r.pagination := by
        rw [hpag]
        exact le_refl 1
      simp [hi, hge]

def c2fetchOnePage : Nat → Option PageResponse := fun p =>
  if p = 1 then some { items := some [[("id", Value.int 1)]], pagination := none }
  else some { items := some [[("id", Value.int 2)]],
              pagination := some { current := some 1, total := some 5 } }

def c2fetchNone : Nat → Option PageResponse := fun _ => none

def c2fetchEmpty : Nat → Option PageResponse := fun _ =>
  some { items := some [], pagination := some { current := some 1, total := some 9 } }

def c2fetchLast : Nat → Option PageResponse := fun _ =>
  some { items := some [[("v", Value.int 3)]],
         pagination := some { current := some 3, total := some 3 } }

/-- C2 witness: with a page-1 response missing `pagination`, `get_accounts`
returns exactly page 1's items even though later pages would paginate on;
a failed fetch, an empty array, and `current >= total` each stop the loop. -/
theorem C2_pagination_policy_witness :
    get_accounts 3 c2fetchOnePage = some [[("id", Value.int 1)]] ∧
    paginate_go c2fetchNone 4 7 [] = some [] ∧
    paginate_go c2fetchEmpty 4 1 [] = some [] ∧
    paginate_go c2fetchLast 4 1 [] = some [[("v", Value.int 3)]] := by
  refine ⟨?_, ?_, ?_, ?_⟩
  · exact (C2_pagination_policy.1 3 c2fetchOnePage).trans
      (C2_pagination_policy.2.2.2.2.2.2 c2fetchOnePage 2 _ rfl rfl)
  · exact C2_pagination_policy.2.2.2.1 c2fetchNone 3 7 [] rfl
  · exact C2_pagination_policy.2.2.2.2.1 c2fetchEmpty 3 1 [] _ rfl rfl
  · exact C2_pagination_policy.2.2.2.2.2.1 c2fetchLast 3 1 [] _ rfl rfl (by decide)

/-! ### Claim theorems: the ga4 Cost-per-Click derivation. -/

theorem por_pos (a b : Value) (h : pyTruthy a = true) : por a b = a := by
  unfold por
  rw [if_pos h]

theorem por_neg (a b : Value) (h : pyTruthy a = false) : por a b = b := by
  unfold por
  rw [if_neg (by rw [h]; simp)]

theorem pyFloat_numeric (v : Value) (h : isNumeric v = true) : pyFloat v = some (toRat v) := by
  cases v with
  | int n => rfl
  | float q => rfl
  | bool b => rfl
  | str s => simp [isNumeric] at h
  | null => simp [isNumeric] at h

theorem pyTruthy_numeric_iff (v : Value) (h : isNumeric v = true) :
    pyTruthy v = true ↔ toRat v ≠ 0 := by
  cases v with
  | int n => simp [pyTruthy, toRat]
  | float q => simp [pyTruthy, toRat]
  | bool b => cases b <;> simp [pyTruthy, toRat]
  | str s => simp [isNumeric] at h
  | null => simp [isNumeric] at h

theorem cpcLoop_fold (rows : List Row) (acc : List Row) (flds : List String) :
    List.foldl (fun st row => (st.1 ++ [cpcRow row], cpcFields st.2 row)) (acc, flds) rows =
      (acc ++ List.map cpcRow rows, List.foldl cpcFields flds rows) := by
  induction rows generalizing acc flds with
  | nil => simp
  | cons r t ih => simp [ih]

theorem cpcFields_stable (flds : List String) (rows : List Row)
    (h : List.contains flds "Cost per Click" = true) :
    List.foldl cpcFields flds rows = flds := by
  induction rows with
  | nil => rfl
  | cons r t ih =>
    simp only [List.foldl_cons]
    have hc : cpcFields flds r = flds := by
      unfold cpcFields
      rw [if_neg (by rw [h]; simp)]
    rw [hc, ih]

theorem cpcFields_appends (rows : List Row) :
    ∀ flds, List.contains flds "Cost per Click" = false →
    (∃ row ∈ rows, isGa4 row = true) →
    List.foldl cpcFields flds rows = flds ++ ["Cost per Click"] := by
  induction rows with
  | nil =>
    intro flds _ hga
    obtain ⟨r, hr, _⟩ := hga
    exact absurd hr (List.not_mem_nil r)
  | cons r t ih =>
    intro flds hnc hga
    simp only [List.foldl_cons]
    by_cases hg : isGa4 r = true
    · have hc : cpcFields flds r = flds ++ ["Cost per Click"] := by
        unfold cpcFields
        rw [if_pos (by rw [hg, hnc]; rfl)]
      rw [hc]
      exact cpcFields_stable _ t
        (List.elem_eq_true_of_mem (List.mem_append.mpr (Or.inr (by simp))))
    · have hc : cpcFields flds r = flds := by
        unfold cpcFields
        rw [if_neg (by simp [hg])]
      rw [hc]
      refine ih flds hnc ?_
      obtain ⟨r2, hr2, hg2⟩ := hga
      rcases List.mem_cons.mp hr2 with h1 | h1
      · exact absurd (h1 ▸ hg2) (by simp [hg])
      · exact ⟨r2, h1, hg2⟩

/-- C5 (amended): in the ga4 loop of `get_all_insights`, every ga4 row gets a
`"Cost per Click"` entry computed from the *effective* operands (`spend` or,
when falsy, `Spend`; `clicks` or, when falsy, `Clicks`): the float quotient
when both coerce and the effective clicks is a nonzero number, and the int 0
when the effective clicks is falsy or either coercion fails — no error ever
propagates — and `"Cost per Click"` is appended to the field list exactly
once when a ga4 row exists and the name is not already present. -/
theorem C5_ga4_cost_per_click (rows : List Row) (all_fields : List String) :
    (cpcLoop rows all_fields).1 = List.map cpcRow rows ∧
    (∀ row, isGa4 row = true →
      cpcRow row = rowSet row "Cost per Click" (cpcValue row)) ∧
    (∀ row, isGa4 row = false → cpcRow row = row) ∧
    (∀ row : Row, isNumeric (cpcSpend row) = true → isNumeric (cpcClicks row) = true →
      toRat (cpcClicks row) ≠ 0 →
      cpcValue row = Value.float (toRat (cpcSpend row) / toRat (cpcClicks row))) ∧
    (∀ row : Row, pyTruthy (cpcClicks row) = false → cpcValue row = Value.int 0) ∧
    (∀ row : Row, pyFloat (cpcSpend row) = none ∨ pyFloat (cpcClicks row) = none →
      cpcValue row = Value.int 0) ∧
    ((∃ row ∈ rows, isGa4 row = true) →
      List.contains all_fields "Cost per Click" = false →
      (cpcLoop rows all_fields).2 = all_fields ++ ["Cost per Click"]) := by
  refine ⟨?_, ?_, ?_, ?_, ?_, ?_, ?_⟩
  · unfold cpcLoop
    rw [cpcLoop_fold]
    simp
  · intro row hg
    unfold cpcRow
    rw [if_pos hg]
  · intro row hg
    unfold cpcRow
    rw [if_neg (by rw [hg]; simp)]
  · intro row hsp hck h0
    have htr : pyTruthy (cpcClicks row) = true := (pyTruthy_numeric_iff _ hck).mpr h0
    unfold cpcValue
    rw [if_pos htr, pyFloat_numeric _ hsp, pyFloat_numeric _ hck]
    show (if toRat (cpcClicks row) = 0 then Value.int 0
      else Value.float (toRat (cpcSpend row) / toRat (cpcClicks row))) = _
    rw [if_neg h0]
  · intro row htr
    unfold cpcValue
    rw [if_neg (by rw [htr]; simp)]
  · intro row hor
    by_cases htr : pyTruthy (cpcClicks row) = true
    · unfold cpcValue
      rw [if_pos htr]
      cases hsp : pyFloat (cpcSpend row) with
      | none =>
        cases hck : pyFloat (cpcClicks row) with
        | none => rfl
        | some b => rfl
      | some a =>
        cases hck : pyFloat (cpcClicks row) with
        | none => rfl
        | some b =>
          rcases hor with h1 | h1
          · rw [hsp] at h1
            exact absurd h1 (by simp)
          · rw [hck] at h1
            exact absurd h1 (by simp)
    · unfold cpcValue
      rw [if_neg htr]
  · intro hga hnc
    unfold cpcLoop
    rw [cpcLoop_fold]
    exact cpcFields_appends rows all_fields hnc hga

def c5w : Row :=
  [("Platform", Value.str "ga4"), ("spend", Value.int 100), ("clicks", Value.int 50)]

def c5w0 : Row :=
  [("Platform", Value.str "ga4"), ("spend", Value.int 100), ("clicks", Value.int 0)]

def c5wbad : Row :=
  [("Platform", Value.str "ga4"), ("spend", Value.str "abc"), ("clicks", Value.int 5)]

/-- C5 witness: spend 100 / clicks 50 gives the float 2.0; clicks 0 gives 0;
an uncoercible spend string gives 0; the field list gains `Cost per Click`
once. -/
theorem C5_ga4_cost_per_click_witness :
    cpcValue c5w = Value.float 2 ∧
    cpcValue c5w0 = Value.int 0 ∧
    cpcValue c5wbad = Value.int 0 ∧
    (cpcLoop [c5w] ["Platform", "Account", "spend", "clicks"]).2 =
      ["Platform", "Account", "spend", "clicks", "Cost per Click"] := by
  have h := C5_ga4_cost_per_click [c5w] ["Platform", "Account", "spend", "clicks"]
  refine ⟨?_, ?_, ?_, ?_⟩
  · have h4 := h.2.2.2.1 c5w (by decide) (by decide) (by decide)
    have e1 : toRat (cpcSpend c5w) = 100 := by
      rw [show cpcSpend c5w = Value.int 100 from by decide]
      norm_num [toRat]
    have e2 : toRat (cpcClicks c5w) = 50 := by
      rw [show cpcClicks c5w = Value.int 50 from by decide]
      norm_num [toRat]
    rw [h4, e1, e2]
    norm_num
  · exact h.2.2.2.2.1 c5w0 (by decide)
  · exact h.2.2.2.2.2.1 c5wbad (Or.inl (by decide))
  · exact h.2.2.2.2.2.2 ⟨c5w, by simp, by decide⟩ (by decide)

def c5cex : Row :=
  [("Platform", Value.str "ga4"), ("spend", Value.int 100),
   ("clicks", Value.int 0), ("Clicks", Value.int 50)]

/-- C5 counterexample: a ga4 row with `clicks = 0` but `Clicks = 50` gets
`Cost per Click = 2.0`, not 0 — the zero `clicks` falls through to the
`Clicks` casing, so "clicks is zero implies 0" is false as stated. -/
theorem C5_ga4_cost_per_click_counterexample :
    pyGet c5cex "clicks" = Value.int 0 ∧
    pyGet (cpcRow c5cex) "Cost per Click" = Value.float 2 ∧
    Value.float 2 ≠ Value.int 0 := by
  refine ⟨by decide, ?_, by decide⟩
  have h0 : cpcRow c5cex = rowSet c5cex "Cost per Click" (cpcValue c5cex) := rfl
  have h1 : cpcValue c5cex = Value.float (((100 : Int) : Rat) / ((50 : Int) : Rat)) := rfl
  have h2 : (((100 : Int) : Rat) / ((50 : Int) : Rat)) = 2 := by norm_num
  rw [h0, pyGet_rowSet_self, h1, h2]

/-- C10: the Cost-per-Click operand lookup falls through on falsy values:
a falsy `spend` with a truthy `Spend` uses the `Spend` value, a truthy
`spend` wins, and only when both casings are falsy does the operand default
to the int 0; symmetrically for `clicks`/`Clicks`. -/
theorem C10_cpc_operand_fallthrough :
    (∀ row : Row, pyTruthy (pyGet row "spend") = false →
      pyTruthy (pyGet row "Spend") = true → cpcSpend row = pyGet row "Spend") ∧
    (∀ row : Row, pyTruthy (pyGet row "spend") = true →
      cpcSpend row = pyGet row "spend") ∧
    (∀ row : Row, pyTruthy (pyGet row "spend") = false →
      pyTruthy (pyGet row "Spend") = false → cpcSpend row = Value.int 0) ∧
    (∀ row : Row, pyTruthy (pyGet row "clicks") = false →
      pyTruthy (pyGet row "Clicks") = true → cpcClicks row = pyGet row "Clicks") ∧
    (∀ row : Row, pyTruthy (pyGet row "clicks") = true →
      cpcClicks row = pyGet row "clicks") ∧
    (∀ row : Row, pyTruthy (pyGet row "clicks") = false →
      pyTruthy (pyGet row "Clicks") = false → cpcClicks row = Value.int 0) := by
  refine ⟨?_, ?_, ?_, ?_, ?_, ?_⟩
  · intro row h1 h2
    unfold cpcSpend
    rw [por_neg _ _ h1, por_pos _ _ h2]
  · intro row h1
    unfold cpcSpend
    rw [por_pos _ _ h1, por_pos _ _ h1]
  · intro row h1 h2
    unfold cpcSpend
    rw [por_neg _ _ h1, por_neg _ _ h2]
  · intro row h1 h2
    unfold cpcClicks
    rw [por_neg _ _ h1, por_pos _ _ h2]
  · intro row h1
    unfold cpcClicks
    rw [por_pos _ _ h1, por_pos _ _ h1]
  · intro row h1 h2
    unfold cpcClicks
    rw [por_neg _ _ h1, por_neg _ _ h2]

def c10row : Row :=
  [("spend", Value.int 0), ("Spend", Value.int 33),
   ("clicks", Value.str ""), ("Clicks", Value.int 4)]

def c10row2 : Row := [("spend", Value.int 5)]

/-- C10 witness: `spend = 0` with `Spend = 33` uses 33; empty-string `clicks`
with `Clicks = 4` uses 4; a truthy `spend` wins; both casings absent give 0. -/
theorem C10_cpc_operand_fallthrough_witness :
    cpcSpend c10row = Value.int 33 ∧
    cpcClicks c10row = Value.int 4 ∧
    cpcSpend c10row2 = Value.int 5 ∧
    cpcClicks c10row2 = Value.int 0 := by
  have h := C10_cpc_operand_fallthrough
  refine ⟨?_, ?_, ?_, ?_⟩
  · exact (h.1 c10row (by decide) (by decide)).trans (by decide)
  · exact (h.2.2.2.1 c10row (by decide) (by decide)).trans (by decide)
  · exact (h.2.1 c10row2 (by decide)).trans (by decide)
  · exact h.2.2.2.2.2 c10row2 (by decide) (by decide)

/-! ### Claim theorems: CSV rendering. -/

theorem csvQuote_of_no_quote (s : String) (h : csvNeedsQuote s = false) : csvQuote s = s := by
  unfold csvQuote
  rw [if_neg (by rw [h]; simp)]

theorem csvRecord_plain (cells : List String) (h : ∀ f ∈ cells, csvNeedsQuote f = false)
    (hne : cells ≠ [""]) :
    csvRecord cells = String.intercalate "," cells ++ "\r\n" := by
  have hmap : List.map csvQuote cells = cells := by
    rw [show List.map csvQuote cells = List.map id cells from
      List.map_congr_left (fun f hf => csvQuote_of_no_quote f (h f hf))]
    exact List.map_id cells
  unfold csvRecord
  split
  · exact absurd rfl hne
  · rw [hmap]

theorem rowGet_filter_contains (r : Row) (fieldnames : List String) (f : String)
    (hf : f ∈ fieldnames) :
    rowGet (List.filter (fun kv => List.contains fieldnames kv.1) r) f = rowGet r f := by
  induction r with
  | nil => rfl
  | cons kv t ih =>
    by_cases hk : (kv.1 == f) = true
    · have hkf : kv.1 = f := by simpa using hk
      have hc : List.contains fieldnames kv.1 = true := by
        rw [hkf]
        exact List.elem_eq_true_of_mem hf
      simp only [List.filter_cons, hc, if_true]
      simp [rowGet, hk]
    · by_cases hc : List.contains fieldnames kv.1 = true
      · simp only [List.filter_cons, hc, if_true]
        simp only [rowGet, hk, Bool.false_eq_true, if_false]
        exact ih
      · simp only [List.filter_cons, hc, Bool.false_eq_true, if_false]
        rw [ih]
        simp [rowGet, hk]

/-- C7: `generate_csv` emits the fieldnames verbatim (comma-joined, CRLF)
as the header when none needs CSV quoting (quoting aside, the header is
always `csvRecord fieldnames`), then one record per row in order with each
cell looked up by fieldname; a fieldname absent from a row renders as the
empty cell, row keys outside `fieldnames` never influence the output
(rendering the rows restricted to `fieldnames` is byte-identical), and the
renderer is a pure function (byte-identical on repeated calls). -/
theorem C7_generate_csv_renderer (rows : List Row) (fieldnames : List String) :
    ((∀ f ∈ fieldnames, csvNeedsQuote f = false) → fieldnames ≠ [""] →
      generate_csv rows fieldnames =
        (String.intercalate "," fieldnames ++ "\r\n") ++
          String.join (List.map
            (fun row => csvRecord (List.map (csvCell row) fieldnames)) rows)) ∧
    (∀ (r : Row) (f : String), rowGet r f = none → csvCell r f = "") ∧
    (generate_csv rows fieldnames =
      generate_csv (List.map (fun r =>
        List.filter (fun kv => List.contains fieldnames kv.1) r) rows) fieldnames) ∧
    generate_csv rows fieldnames = generate_csv rows fieldnames := by
  refine ⟨?_, ?_, ?_, rfl⟩
  · intro hq hne
    unfold generate_csv
    rw [csvRecord_plain fieldnames hq hne]
  · intro r f h
    unfold csvCell pyGet pyGetD
    rw [h]
    rfl
  · unfold generate_csv
    congr 1
    rw [List.map_map]
    congr 1
    apply List.map_congr_left
    intro r _
    show csvRecord (List.map (csvCell r) fieldnames) =
      csvRecord (List.map (csvCell (List.filter (fun kv => List.contains fieldnames kv.1) r))
        fieldnames)
    congr 1
    apply List.map_congr_left
    intro f hf
    show csvCell r f = csvCell (List.filter (fun kv => List.contains fieldnames kv.1) r) f
    unfold csvCell pyGet pyGetD
    rw [rowGet_filter_contains r fieldnames f hf]

def c7row : Row := [("a", Value.int 1), ("c", Value.int 9)]

/-- C7 witness: header `a,b`, the row's `a` renders, the missing `b` renders
empty, and the extra key `c` is dropped (restricting to the fieldnames gives
the identical output). -/
theorem C7_generate_csv_renderer_witness :
    generate_csv [c7row] ["a", "b"] = "a,b\r\n1,\r\n" ∧
    csvCell c7row "b" = "" ∧
    generate_csv [c7row] ["a", "b"] =
      generate_csv [List.filter (fun kv => List.contains ["a", "b"] kv.1) c7row]
        ["a", "b"] := by
  have h := C7_generate_csv_renderer [c7row] ["a", "b"]
  refine ⟨?_, ?_, ?_⟩
  · exact (h.1 (by decide) (by decide)).trans (by decide)
  · exact h.2.1 c7row "b" (by decide)
  · have h3 := h.2.2.1
    simpa using h3

/-! ### Claim theorems: the aggregators do not mutate their inputs
(heap-passing view). -/

theorem heapGet_set_ne (h : Heap) (ptr p : Nat) (r : Row) (hne : p ≠ ptr) :
    heapGet (heapSet h ptr r) p = heapGet h p := by
  unfold heapGet heapSet
  rw [List.getD_eq_getElem?_getD, List.getD_eq_getElem?_getD,
    List.getElem?_set_ne (Ne.symm hne)]

theorem heapGet_append_lt (h : Heap) (l : List Row) (p : Nat) (hp : p < h.length) :
    heapGet (h ++ l) p = heapGet h p := by
  unfold heapGet
  rw [List.getD_eq_getElem?_getD, List.getD_eq_getElem?_getD,
    List.getElem?_append_left hp]

theorem accumHeap_frame (sp : AggSpec) (rp ptr n : Nat) (hptr : n ≤ ptr) :
    ∀ (fields : List String) (h : Heap),
      (accumHeap sp rp ptr fields h).1.length = h.length ∧
      ∀ p, p < n → heapGet (accumHeap sp rp ptr fields h).1 p = heapGet h p := by
  intro fields
  induction fields with
  | nil =>
    intro h
    exact ⟨rfl, fun p _ => rfl⟩
  | cons f fs ih =>
    intro h
    unfold accumHeap
    by_cases hsk : sp.skip f = true
    · rw [if_pos hsk]
      exact ih h
    · rw [if_neg hsk]
      by_cases hv : isNumeric (pyGetD (heapGet h rp) f sp.dflt) = true
      · rw [if_pos hv]
        cases hadd : pyAdd (pyGet (heapGet h ptr) f) (pyGetD (heapGet h rp) f sp.dflt) with
        | none => exact ⟨rfl, fun p _ => rfl⟩
        | some v =>
          have hih := ih (heapSet h ptr (rowSet (heapGet h ptr) f v))
          refine ⟨?_, ?_⟩
          · rw [hih.1]
            exact List.length_set h ptr _
          · intro p hp
            rw [hih.2 p hp,
              heapGet_set_ne h ptr p _ (Nat.ne_of_lt (Nat.lt_of_lt_of_le hp hptr))]
      · rw [if_neg hv]
        exact ih h

theorem heapInsert_frame (sp : AggSpec) (fields : List String) (h : Heap)
    (assoc : List (Value × Nat)) (rp n : Nat) (hn : n ≤ h.length)
    (hb : ∀ q ∈ assoc, n ≤ q.2 ∧ q.2 < h.length) :
    h.length ≤ (heapInsert sp fields h assoc rp).1.length ∧
    (∀ p, p < h.length → heapGet (heapInsert sp fields h assoc rp).1 p = heapGet h p) ∧
    (∀ q ∈ (heapInsert sp fields h assoc rp).2,
      n ≤ q.2 ∧ q.2 < (heapInsert sp fields h assoc rp).1.length) := by
  unfold heapInsert
  by_cases hk : List.any assoc
      (fun p => pyEq p.1 (pyGet (heapGet h rp) sp.keyField)) = true
  · rw [if_pos hk]
    exact ⟨le_refl _, fun p _ => rfl, hb⟩
  · rw [if_neg hk]
    refine ⟨by simp, fun p hp => heapGet_append_lt h _ p hp, ?_⟩
    intro q hq
    rcases List.mem_append.mp hq with h1 | h1
    · have h2 := hb q h1
      exact ⟨h2.1, by
        rw [List.length_append]
        exact Nat.lt_of_lt_of_le h2.2 (Nat.le_add_right _ _)⟩
    · have hq2 : q = (pyGet (heapGet h rp) sp.keyField, h.length) := by simpa using h1
      subst hq2
      exact ⟨hn, by simp⟩

theorem aggHeapGo_frame (sp : AggSpec) (fields : List String) (n : Nat) :
    ∀ (rows : List Nat) (h : Heap) (assoc : List (Value × Nat)),
      n ≤ h.length → (∀ q ∈ assoc, n ≤ q.2 ∧ q.2 < h.length) →
      h.length ≤ (aggHeapGo sp fields rows h assoc).1.length ∧
      (∀ p, p < n → heapGet (aggHeapGo sp fields rows h assoc).1 p = heapGet h p) ∧
      (∀ q ∈ (aggHeapGo sp fields rows h assoc).2.1,
        n ≤ q.2 ∧ q.2 < (aggHeapGo sp fields rows h assoc).1.length) := by
  intro rows
  induction rows with
  | nil =>
    intro h assoc hn hb
    exact ⟨le_refl _, fun p _ => rfl, hb⟩
  | cons rp rest ih =>
    intro h assoc hn hb
    obtain ⟨hlenI, hgetI, hbI⟩ := heapInsert_frame sp fields h assoc rp n hn hb
    unfold aggHeapGo
    split
    · exact ⟨hlenI, fun p hp => hgetI p (Nat.lt_of_lt_of_le hp hn), hbI⟩
    · next p0 hfind =>
      have hp0 := hbI p0 (List.mem_of_find?_eq_some hfind)
      have hacc := accumHeap_frame sp rp p0.2 n hp0.1 fields
        (heapInsert sp fields h assoc rp).1
      split
      · next h2 hres =>
        rw [hres] at hacc
        have hlen1 : h.length ≤ h2.length := by
          rw [hacc.1]
          exact hlenI
        have hget1 : ∀ p, p < n → heapGet h2 p = heapGet h p := by
          intro p hp
          rw [hacc.2 p hp]
          exact hgetI p (Nat.lt_of_lt_of_le hp hn)
        have hb2 : ∀ q ∈ (heapInsert sp fields h assoc rp).2,
            n ≤ q.2 ∧ q.2 < h2.length := by
          intro q hq
          have h3 := hbI q hq
          exact ⟨h3.1, hacc.1 ▸ h3.2⟩
        have hih := ih h2 _ (Nat.le_trans hn hlen1) hb2
        refine ⟨Nat.le_trans hlen1 hih.1, ?_, hih.2.2⟩
        intro p hp
        rw [hih.2.1 p hp, hget1 p hp]
      · next h2 hres =>
        rw [hres] at hacc
        have hlen1 : h.length ≤ h2.length := by
          rw [hacc.1]
          exact hlenI
        have hget1 : ∀ p, p < n → heapGet h2 p = heapGet h p := by
          intro p hp
          rw [hacc.2 p hp]
          exact hgetI p (Nat.lt_of_lt_of_le hp hn)
        refine ⟨hlen1, hget1, ?_⟩
        intro q hq
        have h3 := hbI q hq
        exact ⟨h3.1, hacc.1 ▸ h3.2⟩

/-- C9: neither aggregator mutates its inputs: in the heap-passing view,
every heap cell that existed before the call (in particular every input
insight row) is unchanged afterwards — even when the aggregation raises —
and every returned aggregate row lives at a freshly allocated address.
The field list is only read (no list-mutating operation appears in either
function). -/
theorem C9_aggregators_do_not_mutate_inputs (h : Heap) (rows : List Nat)
    (fields all_fields : List String) :
    (∀ p, p < h.length →
      heapGet (aggregate_by_account_heap h rows fields).1 p = heapGet h p) ∧
    (∀ out, (aggregate_by_account_heap h rows fields).2 = some out →
      ∀ q ∈ out, h.length ≤ q) ∧
    (∀ p, p < h.length →
      heapGet (aggregate_by_platform_heap h rows all_fields).1 p = heapGet h p) ∧
    (∀ out, (aggregate_by_platform_heap h rows all_fields).2 = some out →
      ∀ q ∈ out, h.length ≤ q) := by
  have hA := aggHeapGo_frame accountSpec fields h.length rows h [] (le_refl _)
    (by intro q hq; exact absurd hq (List.not_mem_nil q))
  have hP := aggHeapGo_frame platformSpec all_fields h.length rows h [] (le_refl _)
    (by intro q hq; exact absurd hq (List.not_mem_nil q))
  unfold aggregate_by_account_heap aggregate_by_platform_heap
  cases hgoA : aggHeapGo accountSpec fields rows h [] with
  | mk h2A restA =>
    cases restA with
    | mk assocA bA =>
      cases hgoP : aggHeapGo platformSpec all_fields rows h [] with
      | mk h2P restP =>
        cases restP with
        | mk assocP bP =>
          rw [hgoA] at hA
          rw [hgoP] at hP
          cases bA with
          | true =>
            cases bP with
            | true =>
              refine ⟨fun p hp => hA.2.1 p hp, ?_, fun p hp => hP.2.1 p hp, ?_⟩
              · intro out hout q hq
                have hout2 : out = List.map (fun p => p.2) assocA := by
                  simpa using hout.symm
                subst hout2
                obtain ⟨q0, hq0, hq2⟩ := List.mem_map.mp hq
                exact hq2 ▸ (hA.2.2 q0 hq0).1
              · intro out hout q hq
                have hout2 : out = List.map (fun p => p.2) assocP := by
                  simpa using hout.symm
                subst hout2
                obtain ⟨q0, hq0, hq2⟩ := List.mem_map.mp hq
                exact hq2 ▸ (hP.2.2 q0 hq0).1
            | false =>
              refine ⟨fun p hp => hA.2.1 p hp, ?_, fun p hp => hP.2.1 p hp, ?_⟩
              · intro out hout q hq
                have hout2 : out = List.map (fun p => p.2) assocA := by
                  simpa using hout.symm
                subst hout2
                obtain ⟨q0, hq0, hq2⟩ := List.mem_map.mp hq
                exact hq2 ▸ (hA.2.2 q0 hq0).1
              · intro out hout
                exact absurd hout (by simp)
          | false =>
            cases bP with
            | true =>
              refine ⟨fun p hp => hA.2.1 p hp, ?_, fun p hp => hP.2.1 p hp, ?_⟩
              · intro out hout
                exact absurd hout (by simp)
              · intro out hout q hq
                have hout2 : out = List.map (fun p => p.2) assocP := by
                  simpa using hout.symm
                subst hout2
                obtain ⟨q0, hq0, hq2⟩ := List.mem_map.mp hq
                exact hq2 ▸ (hP.2.2 q0 hq0).1
            | false =>
              refine ⟨fun p hp => hA.2.1 p hp, ?_, fun p hp => hP.2.1 p hp, ?_⟩
              · intro out hout
                exact absurd hout (by simp)
              · intro out hout
                exact absurd hout (by simp)

def c9Heap : Heap :=
  [[("Account", Value.str "A"), ("Platform", Value.str "p"), ("spend", Value.int 1)],
   [("Account", Value.str "A"), ("Platform", Value.str "p"), ("spend", Value.int 2)]]

/-- C9 witness: aggregating two heap rows leaves both input rows bitwise at
their addresses and returns an aggregate row at the fresh address 2. -/
theorem C9_aggregators_do_not_mutate_inputs_witness :
    heapGet (aggregate_by_account_heap c9Heap [0, 1] ["spend"]).1 0 = heapGet c9Heap 0 ∧
    heapGet (aggregate_by_account_heap c9Heap [0, 1] ["spend"]).1 1 = heapGet c9Heap 1 ∧
    c9Heap.length ≤ 2 ∧
    heapGet (aggregate_by_platform_heap c9Heap [0, 1] ["Platform", "spend"]).1 0 =
      heapGet c9Heap 0 := by
  have h := C9_aggregators_do_not_mutate_inputs c9Heap [0, 1] ["spend"]
    ["Platform", "spend"]
  refine ⟨h.1 0 (by decide), h.1 1 (by decide), ?_, h.2.2.1 0 (by decide)⟩
  exact h.2.1 [2] (by decide) 2 (by simp)

end Stract


